import Mathlib

/-!
Verification development for the SCN1/SCN0 mesh reconstruction tool
(`scn1_to_obj.py`).

Modelling conventions:
* A byte buffer is a `List Nat` (each entry a byte value `< 256` in a
  well-formed buffer); little-endian multi-byte reads mirror
  `struct.unpack_from`.
* Reads that the source performs only behind an explicit bounds guard are
  modelled with total readers (`byteAt` / `readU16` / `readU32`); reads that
  can raise in the source are modelled with `Option`-valued readers
  (`readU32o`, `unpackU32s`, ...); a raised exception is `none`.
* Geometry floats are carried symbolically by `PyF`: the decoders never
  compute with them, they only move the 32-bit (or 16-bit half) patterns
  around and possibly apply the `1 - v` flip, so a free syntactic
  representation is faithful.  The numeric claims about `half_to_float`
  use an exact value model `PyFloat` over `ℚ` instead (every value computed
  by that Python function is an exact rational, an infinity, a NaN or a
  signed zero).
-/

/-- Byte access `data[i]` (used only where the source has already bounds
checked the access). -/
def byteAt (data : List Nat) (i : Nat) : Nat := data.getD i 0

/-- `struct.unpack_from("<H", data, i)` (guarded contexts). -/
def readU16 (data : List Nat) (i : Nat) : Nat :=
  byteAt data i + 256 * byteAt data (i + 1)

/-- `struct.unpack_from("<I", data, i)` (guarded contexts). -/
def readU32 (data : List Nat) (i : Nat) : Nat :=
  byteAt data i + 256 * byteAt data (i + 1) + 65536 * byteAt data (i + 2) +
    16777216 * byteAt data (i + 3)

/-- `struct.unpack_from("<I", data, i)` in a context where the source can
raise `struct.error`: fails unless `i + 4 ≤ data.length`. -/
def readU32o (data : List Nat) (i : Nat) : Option Nat :=
  if i + 4 ≤ data.length then some (readU32 data i) else none

/-! ## Vertex Format Model: `vertex_stride_from_decl` (source lines 87-126) -/

/-- Base size table `{0x0002:12, 0x0004:16, 0x0006:16, 0x0008:20, 0x000A:24,
0x000C:28, 0x000E:32}.get(base_sel, 0)`. -/
def baseSizeOf (sel : Nat) : Nat :=
  if sel = 0x0002 then 12
  else if sel = 0x0004 then 16
  else if sel = 0x0006 then 16
  else if sel = 0x0008 then 20
  else if sel = 0x000A then 24
  else if sel = 0x000C then 28
  else if sel = 0x000E then 32
  else 0

/-- The UV-slot loop of `vertex_stride_from_decl`: `uv_count` iterations,
each consuming the low 2 bits of `bits` and adding the slot cost to
`stride`. -/
def uvStrideLoop : Nat → Nat → Nat → Nat
  | 0, _, stride => stride
  | n + 1, bits, stride =>
      let fmt := bits &&& 3
      let stride1 :=
        if fmt = 0 then stride + 8
        else if fmt = 1 then stride + 12
        else if fmt = 2 then stride + 16
        else stride + 4
      uvStrideLoop n (bits >>> 2) stride1

/-- `vertex_stride_from_decl(decl)` (source lines 87-126). -/
def vertex_stride_from_decl (decl : Nat) : Nat :=
  let base := baseSizeOf (decl &&& 0x400E)
  let s0 := base
  let s1 := if decl &&& 0x10 ≠ 0 then s0 + 12 else s0
  let s2 := if decl &&& 0x20 ≠ 0 then s1 + 4 else s1
  let s3 := if decl &&& 0x40 ≠ 0 then s2 + 4 else s2
  let s4 := if decl &&& 0x80 ≠ 0 then s3 + 4 else s3
  let uv_count := (decl >>> 8) &&& 0xF
  let uv_fmt_bits := (decl >>> 16) &&& 0xFFFF
  if uv_fmt_bits ≠ 0 then uvStrideLoop uv_count uv_fmt_bits s4
  else s4 + 8 * uv_count

/-! Claim-side formulation of the stride (C2): base + optional fields + UV
charge, stated as a sum. -/

/-- Cost of one UV slot by its 2-bit selector code (claim C2 / spec §4.3). -/
def uvSlotCost (code : Nat) : Nat :=
  if code = 0 then 8 else if code = 1 then 12 else if code = 2 then 16 else 4

/-- Total UV charge when the selector is non-zero: each of `n` slots costs
`uvSlotCost` of its 2-bit code, codes consumed from the low end. -/
def uvCost : Nat → Nat → Nat
  | 0, _ => 0
  | n + 1, bits => uvSlotCost (bits &&& 3) + uvCost n (bits >>> 2)

/-- The stride as the spec states it: `base + opt + uv`. -/
def strideSpec (d : Nat) : Nat :=
  baseSizeOf (d &&& 0x400E) +
    ((if d &&& 0x10 ≠ 0 then 12 else 0) + (if d &&& 0x20 ≠ 0 then 4 else 0) +
      (if d &&& 0x40 ≠ 0 then 4 else 0) + (if d &&& 0x80 ≠ 0 then 4 else 0)) +
    (if (d >>> 16) &&& 0xFFFF = 0 then 8 * ((d >>> 8) &&& 0xF)
     else uvCost ((d >>> 8) &&& 0xF) ((d >>> 16) &&& 0xFFFF))

/-! ## `half_to_float` (source lines 70-84), exact value model -/

/-- Exact model of the Python floats produced by `half_to_float`: a rational,
a signed infinity, a NaN, or the negative zero object. -/
inductive PyFloat
  | rat (q : ℚ)
  | negZero
  | posInf
  | negInf
  | nan
deriving DecidableEq

/-- `half_to_float(h)` (source lines 70-84).  All arithmetic performed by
the Python code on these inputs is exact in binary64, so the `ℚ` values are
the values of the returned floats. -/
def half_to_float (h : Nat) : PyFloat :=
  let s := (h >>> 15) &&& 1
  let e := (h >>> 10) &&& 0x1F
  let f := h &&& 0x3FF
  if e = 0 then
    if f = 0 then (if s ≠ 0 then PyFloat.negZero else PyFloat.rat 0)
    else
      PyFloat.rat ((if s ≠ 0 then (-1 : ℚ) else 1) * ((f : ℚ) / 1024) *
        (2 : ℚ) ^ (-14 : ℤ))
  else if e = 31 then
    if f = 0 then (if s ≠ 0 then PyFloat.negInf else PyFloat.posInf)
    else PyFloat.nan
  else
    PyFloat.rat ((if s ≠ 0 then (-1 : ℚ) else 1) * (1 + (f : ℚ) / 1024) *
      (2 : ℚ) ^ ((e : ℤ) - 15))

/-- The IEEE-754 binary16 interpretation of a 16-bit pattern (claim C6):
sign `s`, exponent `e`, mantissa `f`; subnormals are
`(-1)^s · 2⁻¹⁴ · f/2¹⁰`, normals `(-1)^s · 2^(e-15) · (1 + f/2¹⁰)`,
`e = 31` gives infinities and NaN, and the all-zero magnitude is a signed
zero. -/
def binary16Value (h : Nat) : PyFloat :=
  let s := (h >>> 15) &&& 1
  let e := (h >>> 10) &&& 0x1F
  let f := h &&& 0x3FF
  if e = 31 then
    if f = 0 then (if s ≠ 0 then PyFloat.negInf else PyFloat.posInf)
    else PyFloat.nan
  else if e = 0 then
    if f = 0 then (if s ≠ 0 then PyFloat.negZero else PyFloat.rat 0)
    else PyFloat.rat ((-1 : ℚ) ^ s * (2 : ℚ) ^ (-14 : ℤ) * ((f : ℚ) / 2 ^ 10))
  else
    PyFloat.rat ((-1 : ℚ) ^ s * (2 : ℚ) ^ ((e : ℤ) - 15) * (1 + (f : ℚ) / 2 ^ 10))

/-! ## Fixed element table: `parse_d3d_decl_520` (source lines 648-709) -/

/-- One D3DVERTEXELEMENT9-style record: `(stream, offset, type, method,
usage, usage_index)`. -/
structure D3DElem where
  stream : Nat
  offset : Nat
  typ : Nat
  method : Nat
  usage : Nat
  usage_idx : Nat
deriving DecidableEq, Repr

/-- The 8-byte record at index `i` of a 520-byte declaration block:
`<HH` then `<BBBB` (source lines 662-665). -/
def elemAt (block : List Nat) (i : Nat) : D3DElem :=
  ⟨readU16 block (8 * i), readU16 block (8 * i + 2), byteAt block (8 * i + 4),
    byteAt block (8 * i + 5), byteAt block (8 * i + 6), byteAt block (8 * i + 7)⟩

/-- `type_size` D3DDECLTYPE table (source lines 674-693); `none` for an
unknown type. -/
def typeSize (t : Nat) : Option Nat :=
  if t = 0 then some 4
  else if t = 1 then some 8
  else if t = 2 then some 12
  else if t = 3 then some 16
  else if t = 4 then some 4
  else if t = 5 then some 4
  else if t = 6 then some 4
  else if t = 7 then some 4
  else if t = 8 then some 8
  else if t = 9 then some 8
  else if t = 10 then some 16
  else if t = 11 then some 4
  else if t = 12 then some 4
  else if t = 13 then some 4
  else if t = 14 then some 4
  else if t = 15 then some 8
  else if t = 16 then some 8
  else if t = 17 then some 8
  else none

/-- The element-collection loop of `parse_d3d_decl_520` (source lines
659-668): starting at record index `i` with `r` records left, append
records, stopping after (and including) the first stream-0xFF sentinel;
the Bool is the `end_found` flag. -/
def buildD3DElems (block : List Nat) : Nat → Nat → List D3DElem × Bool
  | _, 0 => ([], false)
  | i, r + 1 =>
      let e := elemAt block i
      if e.stream = 0xFF then ([e], true)
      else
        let p := buildD3DElems block (i + 1) r
        (e :: p.1, p.2)

/-- The stride loop of `parse_d3d_decl_520` (source lines 695-705): stops
at the sentinel, fails on an unknown type size, and takes the max of
`offset + size` over stream-0 elements. -/
def d3dStrideLoop : List D3DElem → Nat → Option Nat
  | [], acc => some acc
  | e :: rest, acc =>
      if e.stream = 0xFF then some acc
      else
        match typeSize e.typ with
        | none => none
        | some sz =>
            d3dStrideLoop rest (if e.stream ≠ 0 then acc else max acc (e.offset + sz))

/-- `parse_d3d_decl_520(block)` (source lines 648-709). -/
def parse_d3d_decl_520 (block : List Nat) : Option (Nat × List D3DElem) :=
  if block.length ≠ 520 then none
  else
    let p := buildD3DElems block 0 65
    if ¬p.2 then none
    else
      match d3dStrideLoop p.1 0 with
      | none => none
      | some stride =>
          if stride ≤ 0 ∨ 1024 < stride then none else some (stride, p.1)

/-- Claim-side stride: the maximum of `offset + type-size` over the
stream-0 elements among the first `s` records (the records before the
sentinel). -/
def d3dSpecStride (block : List Nat) (s : Nat) : Nat :=
  (List.range s).foldl
    (fun acc i =>
      let e := elemAt block i
      if e.stream = 0 then max acc (e.offset + (typeSize e.typ).getD 0) else acc)
    0

/-- Concrete 520-byte block whose very first record is the stream-0xFF
sentinel (bytes `FF 00`, rest zero). -/
def ceBlock520 : List Nat := 255 :: 0 :: List.replicate 518 0

/-! ## SCN0 fixed-stride-32 scanner (source lines 129-202) -/

/-- Exact evaluation of the source's `abs(x) <= 200000.0` test on the
32-bit pattern `bits` of the float `x`: false for infinities and NaN
(exponent field 255), true for all subnormals (their magnitude is below
1), and for normal values the exact integer comparison equivalent to
`(2^23 + m) * 2^(e-150) <= 200000` (the float32-to-float64 conversion and
the comparison performed by Python are both exact). -/
def f32AbsLe200000 (bits : Nat) : Bool :=
  let e := bits / 2 ^ 23 % 256
  let m := bits % 2 ^ 23
  if e = 255 then false
  else if e = 0 then true
  else decide ((2 ^ 23 + m) * 2 ^ e ≤ 200000 * 2 ^ 150)

/-- The block dict appended by the scanner (source lines 189-201). -/
structure Stride32Block where
  off : Nat
  vcount : Nat
  vb_off : Nat
  vb_size : Nat
  tag : Nat
  ib_bytes : Nat
  ib_off : Nat
  end_off : Nat
  stride : Nat
deriving DecidableEq, Repr

/-- The per-offset body of the scan loop (source lines 152-201): each
`continue` is `none`; acceptance yields the block record.  Every read here
is performed by the source only after the bounds guards that precede it,
hence total readers. -/
def probeStride32 (payload : List Nat) (off : Nat) : Option Stride32Block :=
  let n := payload.length
  let vcount := readU32 payload off
  if vcount < 3 ∨ 2000000 < vcount then none
  else
    let vb_off := off + 4
    let vb_size := vcount * 32
    let tag_off := vb_off + vb_size
    if n < tag_off + 8 then none
    else
      let tag := readU32 payload tag_off
      if tag ≠ 101 ∧ tag ≠ 102 then none
      else
        let ib_bytes := readU32 payload (tag_off + 4)
        if ib_bytes = 0 ∨ 500000000 < ib_bytes ∨ ib_bytes % 2 ≠ 0 then none
        else
          let ib_off := tag_off + 8
          let ib_end := ib_off + ib_bytes
          if n < ib_end then none
          else
            let idx_count := ib_bytes / 2
            if idx_count < 3 ∨ idx_count % 3 ≠ 0 then none
            else
              if ¬ (f32AbsLe200000 (readU32 payload vb_off) = true ∧
                    f32AbsLe200000 (readU32 payload (vb_off + 4)) = true ∧
                    f32AbsLe200000 (readU32 payload (vb_off + 8)) = true) then none
              else
                let sample := min 10 idx_count
                if ¬ ((List.range sample).all
                      fun i => decide (readU16 payload (ib_off + i * 2) < vcount)) then
                  none
                else
                  some ⟨off, vcount, vb_off, vb_size, tag, ib_bytes, ib_off, ib_end, 32⟩

/-- `scan_scn0_stride32_mesh_blocks(payload, start=start)` (source lines
129-202): bytewise scan of offsets `[max 0 start, max 0 (len - 16))`; the
loop's (dead) `off + 4 > n → break` guard is kept as a `takeWhile`. -/
def scan_scn0_stride32_mesh_blocks (payload : List Nat) (start : Nat) :
    List Stride32Block :=
  let n := payload.length
  let lo := max 0 start
  let hi := max 0 (n - 16)
  (((List.range' lo (hi - lo)).takeWhile fun off => decide (off + 4 ≤ n)).filterMap
    (probeStride32 payload))

/-- Claim-side validity predicate for an offset (C3): vcount in
[3, 2000000]; tag 101 or 102 after the vertex buffer; ib_bytes positive,
even, at most 500000000; index count at least 3 and divisible by 3; the
whole block inside the payload; first-vertex coordinates bounded by 200000
in magnitude; and the first `min 10 idx_count` u16 indices below vcount. -/
def stride32ValidAt (payload : List Nat) (off : Nat) : Prop :=
  let n := payload.length
  let vcount := readU32 payload off
  let tag_off := off + 4 + vcount * 32
  let ib_bytes := readU32 payload (tag_off + 4)
  let ib_off := tag_off + 8
  let idx_count := ib_bytes / 2
  3 ≤ vcount ∧ vcount ≤ 2000000 ∧
  tag_off + 8 ≤ n ∧
  (readU32 payload tag_off = 101 ∨ readU32 payload tag_off = 102) ∧
  1 ≤ ib_bytes ∧ ib_bytes ≤ 500000000 ∧ ib_bytes % 2 = 0 ∧
  ib_off + ib_bytes ≤ n ∧
  3 ≤ idx_count ∧ idx_count % 3 = 0 ∧
  f32AbsLe200000 (readU32 payload (off + 4)) = true ∧
  f32AbsLe200000 (readU32 payload (off + 8)) = true ∧
  f32AbsLe200000 (readU32 payload (off + 12)) = true ∧
  ∀ i, i < min 10 idx_count → readU16 payload (ib_off + i * 2) < vcount

instance (payload : List Nat) (off : Nat) : Decidable (stride32ValidAt payload off) := by
  unfold stride32ValidAt
  exact inferInstance

/-- Claim-side description of the block emitted at a valid offset. -/
def stride32BlockAt (payload : List Nat) (off : Nat) : Stride32Block :=
  let vcount := readU32 payload off
  let vb_off := off + 4
  let vb_size := vcount * 32
  let tag_off := vb_off + vb_size
  let ib_bytes := readU32 payload (tag_off + 4)
  ⟨off, vcount, vb_off, vb_size, readU32 payload tag_off, ib_bytes,
    tag_off + 8, tag_off + 8 + ib_bytes, 32⟩

/-! ## SCN0 stride-32 decoder (source lines 205-249) -/

/-- Symbolic Python-float expressions moved around by the geometry
decoders: a float decoded from a 32-bit pattern, one decoded from a
16-bit half pattern (`half_to_float`), or `1.0 - v` of such a value (the
`flip_v` transform).  The geometry claims are structural, so the decoders
never need the numeric value of these expressions. -/
inductive PyF
  | f32 (bits : Nat)
  | half (bits : Nat)
  | oneMinus (v : PyF)
deriving DecidableEq, Repr

/-- The `Mesh` dataclass (source lines 350-360). -/
structure Mesh where
  name : String
  decl : Nat
  vertices : List (PyF × PyF × PyF)
  normals : List (Option (PyF × PyF × PyF))
  uvs : List (Option (PyF × PyF))
  faces : List (Nat × Nat × Nat)
  maps : List (String × String)
  subsets : List (List (String × Nat))
  material_sets : List (List (String × String))
deriving DecidableEq, Repr

/-- `struct.unpack_from("<3f", data, off)` as three float patterns; raises
(`none`) iff the 12 bytes cross the buffer end. -/
def unpack3f (data : List Nat) (off : Nat) : Option (PyF × PyF × PyF) :=
  if off + 12 ≤ data.length then
    some (PyF.f32 (readU32 data off), PyF.f32 (readU32 data (off + 4)),
      PyF.f32 (readU32 data (off + 8)))
  else none

/-- `struct.unpack_from("<2f", data, off)`. -/
def unpack2f (data : List Nat) (off : Nat) : Option (PyF × PyF) :=
  if off + 8 ≤ data.length then
    some (PyF.f32 (readU32 data off), PyF.f32 (readU32 data (off + 4)))
  else none

/-- `struct.unpack_from("<" + "H"*k, data, off)`. -/
def unpackU16s (data : List Nat) (off k : Nat) : Option (List Nat) :=
  if off + 2 * k ≤ data.length then
    some ((List.range k).map fun i => readU16 data (off + 2 * i))
  else none

/-- The face-building loop `for i in range(0, len(indices), 3)` of the
decoders: unpacking `indices[i:i+3]` into `a, b, c` raises when fewer than
3 elements remain. -/
def buildTris : List Nat → Option (List (Nat × Nat × Nat))
  | [] => some []
  | a :: b :: c :: rest => (buildTris rest).map (fun fs => (a, b, c) :: fs)
  | _ => none

/-- `decode_scn0_stride32_mesh_block(payload, block, flip_v=…, swap_yz=…)`
(source lines 205-249).  The hex formatting of the mesh name is elided
(decimal offset instead). -/
def decode_scn0_stride32_mesh_block (payload : List Nat) (block : Stride32Block)
    (flip_v swap_yz : Bool) : Option Mesh := do
  let vdata ← (List.range block.vcount).mapM fun i => do
    let base := block.vb_off + i * 32
    let p ← unpack3f payload base
    let nr ← unpack3f payload (base + 12)
    let uv0 ← unpack2f payload (base + 24)
    let p1 := if swap_yz then (p.1, p.2.2, p.2.1) else p
    let nr1 := if swap_yz then (nr.1, nr.2.2, nr.2.1) else nr
    let uv1 := if flip_v then (uv0.1, PyF.oneMinus uv0.2) else uv0
    pure (p1, nr1, uv1)
  let idx_count := block.ib_bytes / 2
  let indices ← unpackU16s payload block.ib_off idx_count
  let faces ← buildTris indices
  pure ⟨"SCN0_mesh_" ++ toString block.off, 0,
    vdata.map (fun t => t.1),
    vdata.map (fun t => some t.2.1),
    vdata.map (fun t => some t.2.2),
    faces, [], [], []⟩

/-- Concrete SCN0 payload for C1: one stride-32 block at offset 0 with
vcount = 3 (zero vertices), tag = 101, ib_bytes = 24 (12 indices); the
first 10 indices are in range, index 11 is 100 (out of range). -/
def cePayloadS32 : List Nat :=
  [3, 0, 0, 0] ++ List.replicate 96 0 ++
  [101, 0, 0, 0, 24, 0, 0, 0,
   0, 0, 1, 0, 2, 0, 0, 0, 1, 0, 2, 0, 0, 0, 1, 0, 2, 0, 0, 0, 1, 0, 100, 0]

/-- The mesh decoded from the block of `cePayloadS32` (flip_v = true,
swap_yz = false). -/
def ceMeshS32 : Mesh :=
  ⟨"SCN0_mesh_0", 0,
    List.replicate 3 (PyF.f32 0, PyF.f32 0, PyF.f32 0),
    List.replicate 3 (some (PyF.f32 0, PyF.f32 0, PyF.f32 0)),
    List.replicate 3 (some (PyF.f32 0, PyF.oneMinus (PyF.f32 0))),
    [(0, 1, 2), (0, 1, 2), (0, 1, 2), (0, 1, 100)], [], [], []⟩

/-! ## Scene-tree walker: `parse_scn_tree` (source lines 326-347) -/

/-- `data.find(b"\x00", ofs)`: index of the first NUL byte at or after
`ofs` (`Reader.cstr`, source lines 61-67); `none` when there is none
(the reader then raises). -/
def findNul (data : List Nat) (ofs : Nat) : Option Nat :=
  if h : ofs < data.length then
    (if byteAt data ofs = 0 then some ofs else findNul data (ofs + 1))
  else none
termination_by data.length - ofs
decreasing_by omega

/-- The recursive `parse_node` of `parse_scn_tree` (source lines 336-344),
instrumented with the recursion depth it uses (second component).  The
`fuel` argument only makes the recursion structural: each level consumes
at least 69 bytes of input, so `data.length + 1` fuel can never be
exhausted.  Reads and seeks fail (`none`) exactly where the Python
`Reader` raises. -/
def parseNodeAux (data : List Nat) : Nat → Nat → Option (Nat × Nat)
  | 0, _ => none
  | fuel + 1, ofs => do
      let e ← findNul data ofs
      let o1 := e + 1 + 0x40
      if data.length < o1 then none
      else do
        let flag1 ← readU32o data o1
        let o2 := o1 + 4
        let pd1 ←
          if flag1 = 1 then parseNodeAux data fuel o2
          else pure (o2, 0)
        let flag2 ← readU32o data pd1.1
        let o4 := pd1.1 + 4
        let pd2 ←
          if flag2 = 1 then parseNodeAux data fuel o4
          else pure (o4, 0)
        pure (pd2.1, 1 + max pd1.2 pd2.2)

/-- `parse_scn_tree(data, start)`: the cursor position immediately after
the fully parsed root node. -/
def parse_scn_tree (data : List Nat) (start : Nat) : Option Nat :=
  (parseNodeAux data (data.length + 1) start).map (fun p => p.1)

/-- The native recursion depth `parse_scn_tree` uses on an input. -/
def parse_scn_tree_depth (data : List Nat) (start : Nat) : Option Nat :=
  (parseNodeAux data (data.length + 1) start).map (fun p => p.2)

/-- `deepBytes k`: a root node whose flag1 chain nests `k + 1` levels:
each level is an empty name (a lone NUL), 0x40 opaque bytes, `flag1 = 1`,
the nested child, then `flag2 = 0`; the innermost level has both flags 0.
Total length `73 * (k + 1)`. -/
def deepBytes : Nat → List Nat
  | 0 => 0 :: (List.replicate 64 0 ++ [0, 0, 0, 0, 0, 0, 0, 0])
  | k + 1 => (0 :: (List.replicate 64 0 ++ [1, 0, 0, 0])) ++ deepBytes k ++ [0, 0, 0, 0]

/-- `seg` occurs in `data` at position `i`. -/
def SliceAt (data : List Nat) (i : Nat) (seg : List Nat) : Prop :=
  i + seg.length ≤ data.length ∧
  ∀ j, j < seg.length → byteAt data (i + j) = byteAt seg j

/-! ## CompactBitmask vertex decoder: `decode_vertex` (source lines 251-323) -/

/-- `struct.unpack_from` of the `k`-float base field at `off`, keeping the
first three floats as the position (the source discards the trailing
weight/padding floats of the wider bases, `k ∈ {3,…,8}`). -/
def unpackPos (vb : List Nat) (off k : Nat) : Option (PyF × PyF × PyF) :=
  if off + 4 * k ≤ vb.length then
    some (PyF.f32 (readU32 vb off), PyF.f32 (readU32 vb (off + 4)),
      PyF.f32 (readU32 vb (off + 8)))
  else none

/-- The optional-normal step of `decode_vertex` (source lines 283-289):
returns the normal (if bit 0x10 is set) and the byte offset after it. -/
def decodeVertexNrm (decl : Nat) (vb : List Nat) (off1 : Nat)
    (swap_yz : Bool) : Option (Option (PyF × PyF × PyF) × Nat) :=
  if decl &&& 0x10 ≠ 0 then
    (unpack3f vb off1).map fun n0 =>
      (some (if swap_yz then (n0.1, n0.2.2, n0.2.1) else n0), off1 + 12)
  else pure (none, off1)

/-- The UV step of `decode_vertex` (source lines 299-321): at most one UV
pair, format chosen by the first 2-bit selector slot. -/
def decodeVertexUV (decl : Nat) (vb : List Nat) (off4 : Nat)
    (flip_v : Bool) : Option (Option (PyF × PyF)) :=
  if (decl >>> 8) &&& 0xF ≠ 0 then do
    let uv_fmt_bits := (decl >>> 16) &&& 0xFFFF
    let fmt := if uv_fmt_bits ≠ 0 then uv_fmt_bits &&& 3 else 0
    let uvp ←
      if fmt = 0 then
        (unpack2f vb off4).map fun q => (q.1, q.2)
      else if fmt = 1 then
        (if off4 + 12 ≤ vb.length then
          some (PyF.f32 (readU32 vb off4), PyF.f32 (readU32 vb (off4 + 4)))
        else none)
      else if fmt = 2 then
        (if off4 + 16 ≤ vb.length then
          some (PyF.f32 (readU32 vb off4), PyF.f32 (readU32 vb (off4 + 4)))
        else none)
      else
        (if off4 + 4 ≤ vb.length then
          some (PyF.half (readU16 vb off4), PyF.half (readU16 vb (off4 + 2)))
        else none)
    let v1 := if flip_v then PyF.oneMinus uvp.2 else uvp.2
    pure (some (uvp.1, v1))
  else pure none

/-- Body of `decode_vertex` from byte offset `off0` (the source computes
`off = i * stride` then proceeds; `decode_vertex` below instantiates
`off0`).  The unknown-base `else` branch still reads the first 12 bytes as
the position (source lines 274-277). -/
def decodeVertexCore (decl : Nat) (vb : List Nat) (off0 : Nat)
    (flip_v swap_yz : Bool) :
    Option ((PyF × PyF × PyF) × Option (PyF × PyF × PyF) × Option (PyF × PyF)) := do
  let base_sel := decl &&& 0x400E
  let k :=
    if base_sel = 0x0002 then 3
    else if base_sel = 0x0004 ∨ base_sel = 0x0006 then 4
    else if base_sel = 0x0008 then 5
    else if base_sel = 0x000A then 6
    else if base_sel = 0x000C then 7
    else if base_sel = 0x000E then 8
    else 3
  let p0 ← unpackPos vb off0 k
  let pos := if swap_yz then (p0.1, p0.2.2, p0.2.1) else p0
  let nd ← decodeVertexNrm decl vb (off0 + 4 * k) swap_yz
  let off2 := if decl &&& 0x20 ≠ 0 then nd.2 + 4 else nd.2
  let off3 := if decl &&& 0x40 ≠ 0 then off2 + 4 else off2
  let off4 := if decl &&& 0x80 ≠ 0 then off3 + 4 else off3
  let uv ← decodeVertexUV decl vb off4 flip_v
  pure (pos, nd.1, uv)

/-- `decode_vertex(decl, vb, i, flip_v=…, swap_yz=…)` (source lines
251-323). -/
def decode_vertex (decl : Nat) (vb : List Nat) (i : Nat)
    (flip_v swap_yz : Bool) :
    Option ((PyF × PyF × PyF) × Option (PyF × PyF × PyF) × Option (PyF × PyF)) :=
  decodeVertexCore decl vb (i * vertex_stride_from_decl decl) flip_v swap_yz

/-! ## Subset table recovery: `find_subset_table` (source lines 1016-1092) -/

/-- A Python dict with string keys and int values, as an insertion-ordered
association list (the source's subset entries). -/
def dictGet (d : List (String × Nat)) (key : String) : Option Nat :=
  (d.find? fun p => p.1 == key).map fun p => p.2

/-- `dict[key]` where the invariant guarantees presence (`best[0]["_end_off"]`,
source line 1084); defaults to 0, never exercised. -/
def dictGetD (d : List (String × Nat)) (key : String) : Nat :=
  (dictGet d key).getD 0

/-- The entry dict appended by the source (source lines 1068-1075); note
that `vertexCount` (entry size 20) is validated but NOT stored. -/
def subsetEntryDict (m_id start_tri tri_count base_v : Nat) :
    List (String × Nat) :=
  [("material_id", m_id), ("start_tri", start_tri), ("tri_count", tri_count),
   ("base_vertex", base_v)]

/-- The per-entry validation loop of `find_subset_table` (source lines
1047-1075), from entry index `i` with `rem` entries left: `none` is a
struct.error (read past the buffer), `some none` is `ok = False`, and on
success the entry dicts together with the running `max_end` and `sum_tris`
accumulators. -/
def readSubsetEntriesAux (payload : List Nat) (off entry_size vcount face_count : Nat) :
    Nat → Nat → Option (Option (List (List (String × Nat)) × Nat × Nat))
  | _, 0 => some (some ([], 0, 0))
  | i, rem + 1 =>
      let base := off + 4 + i * entry_size
      if base + entry_size ≤ payload.length then
        let m_id := readU32 payload base
        let start_tri := readU32 payload (base + 4)
        let tri_count := readU32 payload (base + 8)
        let base_v := readU32 payload (base + 12)
        if entry_size = 20 ∧ readU32 payload (base + 16) ≠ vcount then some none
        else if vcount < base_v then some none
        else if 100000000 < start_tri ∨ 100000000 < tri_count ∨ tri_count = 0 then
          some none
        else if face_count < start_tri + tri_count then some none
        else
          match readSubsetEntriesAux payload off entry_size vcount face_count
              (i + 1) rem with
          | none => none
          | some none => some none
          | some (some (es, mx, sm)) =>
              some (some (subsetEntryDict m_id start_tri tri_count base_v :: es,
                max (start_tri + tri_count) mx, tri_count + sm))
      else none

/-- One size-candidate at one offset (source lines 1038-1082): `some none`
is a `continue` (overlap with the declaration, a failed entry, or the
zero-coverage test), success is the entry list and its end offset. -/
def subsetTableAt (payload : List Nat) (decl_off vcount face_count off size
    subset_count : Nat) : Option (Option (List (List (String × Nat)) × Nat)) :=
  let table_bytes := 4 + subset_count * size
  if decl_off < off + table_bytes then some none
  else
    match readSubsetEntriesAux payload off size vcount face_count 0 subset_count with
    | none => none
    | some none => some none
    | some (some (entries, max_end, sum_tris)) =>
        if sum_tris = 0 ∨ max_end = 0 then some none
        else some (some (entries, off + table_bytes))

/-- `entries[0]["_end_off"] = end` (source line 1086): append the end
marker to the first entry dict (fresh dicts never contain the key, so
Python's assignment is an insertion). -/
def withEnd (ents : List (List (String × Nat))) (e : Nat) :
    List (List (String × Nat)) :=
  match ents with
  | [] => []
  | e0 :: rest => (e0 ++ [("_end_off", e)]) :: rest

/-- The best-candidate update (source lines 1083-1087): replace `best`
when it is empty or the new table's end is strictly closer to the
declaration offset; the end offset is smuggled into the first entry dict
under the `"_end_off"` key exactly as the source does. -/
def updateBest (decl_off : Nat) (best : List (List (String × Nat)))
    (cand : List (List (String × Nat)) × Nat) : List (List (String × Nat)) :=
  if best = [] ∨ decl_off - cand.2 < decl_off - dictGetD (best.headD []) "_end_off" then
    withEnd cand.1 cand.2
  else best

/-- The per-offset body of the backward scan (source lines 1034-1087):
read `subset_count`, reject counts outside [1, 256], then try entry sizes
20 and 16 in that order. -/
def subsetOffStep (payload : List Nat) (decl_off vcount face_count : Nat)
    (best : List (List (String × Nat))) (off : Nat) :
    Option (List (List (String × Nat))) :=
  if off + 4 ≤ payload.length then
    let subset_count := readU32 payload off
    if subset_count = 0 ∨ 256 < subset_count then some best
    else
      match subsetTableAt payload decl_off vcount face_count off 20 subset_count with
      | none => none
      | some none =>
          (match subsetTableAt payload decl_off vcount face_count off 16
              subset_count with
          | none => none
          | some none => some best
          | some (some cand) => some (updateBest decl_off best cand))
      | some (some cand) =>
          let best20 := updateBest decl_off best cand
          (match subsetTableAt payload decl_off vcount face_count off 16
              subset_count with
          | none => none
          | some none => some best20
          | some (some cand2) => some (updateBest decl_off best20 cand2))
  else none

/-- The scanned offsets `range(search_start, search_end, 4)` of
`find_subset_table` (source lines 1029-1034). -/
def subsetWindow (decl_off : Nat) : List Nat :=
  List.range' (decl_off - 0x4000) ((decl_off - 4 - (decl_off - 0x4000) + 3) / 4) 4

/-- The final `"_end_off"` strip (source lines 1089-1091). -/
def stripEndKey : List (List (String × Nat)) → List (List (String × Nat))
  | [] => []
  | e0 :: rest =>
      if (e0.find? fun p => p.1 == "_end_off").isSome then
        (e0.filter fun p => !(p.1 == "_end_off")) :: rest
      else e0 :: rest

/-- `find_subset_table(payload, decl_off, vcount, face_count)` (source
lines 1016-1092; `face_count` is always passed by both call sites, so it
is modelled as a plain `Nat`). -/
def find_subset_table (payload : List Nat) (decl_off vcount face_count : Nat) :
    Option (List (List (String × Nat))) :=
  let search_start := decl_off - 0x4000
  let search_end := decl_off - 4
  if search_end ≤ search_start then some []
  else
    match (subsetWindow decl_off).foldlM
        (subsetOffStep payload decl_off vcount face_count) [] with
    | none => none
    | some best => some (stripEndKey best)

/-! Claim-side notions for C4: a valid candidate table and its data. -/

/-- Claim-side validity of one subset entry at byte offset `base` (C4,
amended with the source's extra `start_tri ≤ 1e8` and `tri_count ≤ 1e8`
plausibility bounds). -/
def SubsetEntryOK (payload : List Nat) (base vcount face_count size : Nat) : Prop :=
  (size = 20 → readU32 payload (base + 16) = vcount) ∧
  readU32 payload (base + 12) ≤ vcount ∧
  readU32 payload (base + 4) ≤ 100000000 ∧
  1 ≤ readU32 payload (base + 8) ∧ readU32 payload (base + 8) ≤ 100000000 ∧
  readU32 payload (base + 4) + readU32 payload (base + 8) ≤ face_count

/-- Claim-side validity of a candidate table at `(off, size)`: header
count in [1, 256], table ends at or before the declaration offset, and
every entry valid. -/
def SubsetCand (payload : List Nat) (decl_off vcount face_count off size : Nat) :
    Prop :=
  1 ≤ readU32 payload off ∧ readU32 payload off ≤ 256 ∧
  off + (4 + readU32 payload off * size) ≤ decl_off ∧
  ∀ i, i < readU32 payload off →
    SubsetEntryOK payload (off + 4 + i * size) vcount face_count size

/-- End offset of a candidate table. -/
def subsetCandEnd (payload : List Nat) (off size : Nat) : Nat :=
  off + (4 + readU32 payload off * size)

/-- The entry dicts of a candidate table, read in table order. -/
def subsetCandEntries (payload : List Nat) (off size : Nat) :
    List (List (String × Nat)) :=
  (List.range (readU32 payload off)).map fun i =>
    subsetEntryDict (readU32 payload (off + 4 + i * size))
      (readU32 payload (off + 4 + i * size + 4))
      (readU32 payload (off + 4 + i * size + 8))
      (readU32 payload (off + 4 + i * size + 12))

/-- Invariant of the best-candidate fold after processing the given
`(offset, entry-size)` slots, in scan order: either nothing valid was seen
and `best` is empty, or `best` is the entry list (end marker attached) of
a valid candidate whose end is maximal among the valid processed slots. -/
def SlotInv (payload : List Nat) (decl_off vcount face_count : Nat)
    (slots : List (Nat × Nat)) (best : List (List (String × Nat))) : Prop :=
  (best = [] ∧ ∀ p ∈ slots, ¬ SubsetCand payload decl_off vcount face_count p.1 p.2) ∨
  (∃ p ∈ slots, SubsetCand payload decl_off vcount face_count p.1 p.2 ∧
    best = withEnd (subsetCandEntries payload p.1 p.2)
      (subsetCandEnd payload p.1 p.2) ∧
    ∀ q ∈ slots, SubsetCand payload decl_off vcount face_count q.1 q.2 →
      subsetCandEnd payload q.1 q.2 ≤ subsetCandEnd payload p.1 p.2)

/-! Synthetic table encoding for C5. -/

/-- Little-endian 4-byte encoding of a 32-bit value. -/
def u32le (v : Nat) : List Nat :=
  [v % 256, v / 256 % 256, v / 65536 % 256, v / 16777216 % 256]

/-- A synthetic entry-size-20 subset entry
`(material_id, start_tri, tri_count, base_vertex, vertex_count)`. -/
def encodeSubsetEntry (e : Nat × Nat × Nat × Nat × Nat) : List Nat :=
  u32le e.1 ++ u32le e.2.1 ++ u32le e.2.2.1 ++ u32le e.2.2.2.1 ++ u32le e.2.2.2.2

/-- A synthetic subset table: `subset_count` then the entries. -/
def encodeSubsetTable (es : List (Nat × Nat × Nat × Nat × Nat)) : List Nat :=
  u32le es.length ++ (es.map encodeSubsetEntry).flatten

/-- Concrete synthetic payload for the C5 counterexample: one entry-size-20
entry `(material_id 2, start_tri 0, tri_count 1, base_vertex 0,
vertex_count 5)` directly before declaration offset 24. -/
def ceSubsetPayload : List Nat := encodeSubsetTable [(2, 0, 1, 0, 5)]

/-- The claim's per-entry validity as literally stated (C4), WITHOUT the
source's `start_tri ≤ 1e8` / `tri_count ≤ 1e8` plausibility bounds. -/
def SubsetEntryOKOrig (payload : List Nat) (base vcount face_count size : Nat) :
    Prop :=
  (size = 20 → readU32 payload (base + 16) = vcount) ∧
  readU32 payload (base + 12) ≤ vcount ∧
  1 ≤ readU32 payload (base + 8) ∧
  readU32 payload (base + 4) + readU32 payload (base + 8) ≤ face_count

/-- The claim's candidate-table validity as literally stated (C4). -/
def SubsetCandOrig (payload : List Nat) (decl_off vcount face_count off size : Nat) :
    Prop :=
  1 ≤ readU32 payload off ∧ readU32 payload off ≤ 256 ∧
  off + (4 + readU32 payload off * size) ≤ decl_off ∧
  ∀ i, i < readU32 payload off →
    SubsetEntryOKOrig payload (off + 4 + i * size) vcount face_count size

instance (payload : List Nat) (base vcount face_count size : Nat) :
    Decidable (SubsetEntryOKOrig payload base vcount face_count size) := by
  unfold SubsetEntryOKOrig
  infer_instance

instance (payload : List Nat) (decl_off vcount face_count off size : Nat) :
    Decidable (SubsetCandOrig payload decl_off vcount face_count off size) := by
  unfold SubsetCandOrig
  infer_instance

/-- Concrete payload for the C4 counterexample: a single entry-size-20
entry `(material_id 1, start_tri 150000000, tri_count 1, base_vertex 0,
vertex_count 5)` directly before declaration offset 24. Its `start_tri`
exceeds the source's 1e8 plausibility cutoff. -/
def ceSubsetPayloadB : List Nat := encodeSubsetTable [(1, 150000000, 1, 0, 5)]

/-! # Theorems -/

/-- Helper: the source's UV loop accumulates exactly `uvCost` on top of the
incoming stride. -/
theorem uvStrideLoop_eq (n : Nat) :
    ∀ bits s, uvStrideLoop n bits s = s + uvCost n bits := by
  induction n with
  | zero => intro bits s; rfl
  | succ m ih =>
      intro bits s
      simp only [uvStrideLoop, uvCost, ih]
      by_cases h0 : bits &&& 3 = 0
      · simp [h0, uvSlotCost]; omega
      · by_cases h1 : bits &&& 3 = 1
        · simp [h0, h1, uvSlotCost]; omega
        · by_cases h2 : bits &&& 3 = 2
          · simp [h0, h1, h2, uvSlotCost]; omega
          · simp [h0, h1, h2, uvSlotCost]; omega

/-- C2: for every 32-bit CompactBitmask declaration `d`,
`vertex_stride_from_decl d` equals the spec's sum `base + opt + uv`, where
`base` is the table lookup on `d &&& 0x400E`, `opt` adds 12 for bit 0x10 and
4 for each of bits 0x20/0x40/0x80, and `uv` charges 8 bytes per slot when
bits 16-31 are zero and otherwise the per-slot 2-bit selector cost
8/12/16/4, selectors consumed two bits at a time from the low end. -/
theorem vertex_stride_from_decl_eq_spec (d : Nat) (hd : d < 2 ^ 32) :
    vertex_stride_from_decl d = strideSpec d := by
  clear hd
  unfold vertex_stride_from_decl strideSpec
  by_cases hu : (d >>> 16) &&& 0xFFFF = 0 <;>
    simp only [hu, if_true, if_false, uvStrideLoop_eq] <;>
    by_cases h1 : d &&& 0x10 ≠ 0 <;> by_cases h2 : d &&& 0x20 ≠ 0 <;>
    by_cases h3 : d &&& 0x40 ≠ 0 <;> by_cases h4 : d &&& 0x80 ≠ 0 <;>
    simp [h1, h2, h3, h4] <;> omega

/-- Witness for C2 at a concrete declaration. -/
theorem vertex_stride_from_decl_eq_spec_witness :
    0x00030412 < 2 ^ 32 ∧
      vertex_stride_from_decl 0x00030412 = strideSpec 0x00030412 :=
  ⟨by decide, vertex_stride_from_decl_eq_spec 0x00030412 (by decide)⟩

/-- C6: `half_to_float` implements IEEE-754 binary16 decoding: the four
pinned values `0x3C00 ↦ 1.0`, `0x0000 ↦ 0.0`, `0x7C00 ↦ +∞`,
`0x8000 ↦ -0.0`, and for every 16-bit input the result is the binary16
sign/exponent/mantissa interpretation (subnormals, infinities and NaN
included). -/
theorem half_to_float_eq_binary16 :
    half_to_float 0x3C00 = PyFloat.rat 1 ∧
    half_to_float 0x0000 = PyFloat.rat 0 ∧
    half_to_float 0x7C00 = PyFloat.posInf ∧
    half_to_float 0x8000 = PyFloat.negZero ∧
    ∀ h, h < 65536 → half_to_float h = binary16Value h := by
  refine ⟨?_, ?_, ?_, ?_, ?_⟩
  · have he : (15360 : Nat) >>> 10 &&& 31 = 15 := by decide
    have hf : (15360 : Nat) &&& 1023 = 0 := by decide
    have hs : (15360 : Nat) >>> 15 &&& 1 = 0 := by decide
    simp only [half_to_float, he, hf, hs]
    norm_num
  · have he : (0 : Nat) >>> 10 &&& 31 = 0 := by decide
    have hf : (0 : Nat) &&& 1023 = 0 := by decide
    have hs : (0 : Nat) >>> 15 &&& 1 = 0 := by decide
    simp only [half_to_float, he, hf, hs]
    norm_num
  · have he : (31744 : Nat) >>> 10 &&& 31 = 31 := by decide
    have hf : (31744 : Nat) &&& 1023 = 0 := by decide
    have hs : (31744 : Nat) >>> 15 &&& 1 = 0 := by decide
    simp only [half_to_float, he, hf, hs]
    norm_num
  · have he : (32768 : Nat) >>> 10 &&& 31 = 0 := by decide
    have hf : (32768 : Nat) &&& 1023 = 0 := by decide
    have hs : (32768 : Nat) >>> 15 &&& 1 = 1 := by decide
    simp only [half_to_float, he, hf, hs]
    norm_num
  intro h _
  unfold half_to_float binary16Value
  have hs : (h >>> 15) &&& 1 = 0 ∨ (h >>> 15) &&& 1 = 1 := by
    rw [Nat.and_one_is_mod]; omega
  by_cases he0 : (h >>> 10) &&& 0x1F = 0
  · by_cases hf0 : h &&& 0x3FF = 0
    · simp [he0, hf0]
    · rcases hs with hs | hs <;>
        simp [he0, hf0, hs, div_eq_mul_inv] <;> ring
  · by_cases he31 : (h >>> 10) &&& 0x1F = 31
    · by_cases hf0 : h &&& 0x3FF = 0
      · simp [he0, he31, hf0]
      · simp [he0, he31, hf0]
    · rcases hs with hs | hs <;>
        simp [he0, he31, hs, div_eq_mul_inv] <;> ring

/-- Witness for C6's universally quantified part at a concrete input. -/
theorem half_to_float_eq_binary16_witness :
    1000 < 65536 ∧ half_to_float 1000 = binary16Value 1000 :=
  ⟨by norm_num, half_to_float_eq_binary16.2.2.2.2 1000 (by norm_num)⟩

/-- Helper: when no record in `[i, i+r)` is a sentinel, the element loop
collects all `r` records and reports `end_found = false`. -/
theorem buildD3DElems_no_sent (block : List Nat) :
    ∀ r i, (∀ j, i ≤ j → j < i + r → (elemAt block j).stream ≠ 0xFF) →
      buildD3DElems block i r = ((List.range' i r).map (elemAt block), false) := by
  intro r
  induction r with
  | zero => intro i _; rfl
  | succ m ih =>
      intro i h
      have hne : (elemAt block i).stream ≠ 0xFF := h i le_rfl (by omega)
      simp only [buildD3DElems, hne, if_false, List.range']
      rw [ih (i + 1) (fun j hj1 hj2 => h j (by omega) (by omega))]
      simp

/-- Helper: when the first sentinel in `[i, i+r)` sits at record `s`, the
element loop collects records `i..s` (sentinel included) and reports
`end_found = true`. -/
theorem buildD3DElems_sent (block : List Nat) :
    ∀ r i s, i ≤ s → s < i + r → (elemAt block s).stream = 0xFF →
      (∀ j, i ≤ j → j < s → (elemAt block j).stream ≠ 0xFF) →
      buildD3DElems block i r =
        ((List.range' i (s - i + 1)).map (elemAt block), true) := by
  intro r
  induction r with
  | zero => intro i s h1 h2; omega
  | succ m ih =>
      intro i s h1 h2 hsent hbefore
      by_cases hi : i = s
      · subst hi
        simp only [buildD3DElems, hsent, if_pos rfl, Nat.sub_self]
        simp [List.range']
      · have hlt : i < s := lt_of_le_of_ne h1 hi
        have hne : (elemAt block i).stream ≠ 0xFF := hbefore i le_rfl hlt
        simp only [buildD3DElems, hne, if_false]
        rw [ih (i + 1) s (by omega) (by omega) hsent
            (fun j hj1 hj2 => hbefore j (by omega) hj2)]
        have hr : s - i + 1 = (s - (i + 1) + 1) + 1 := by omega
        rw [hr]
        simp [List.range']

/-- Helper: the stride loop on `l ++ [sentinel]`, with no sentinel inside
`l`, fails exactly when some element of `l` has an unknown type size, and
otherwise folds the stream-0 `offset + size` maximum over `l`. -/
theorem d3dStrideLoop_append_sent (sentE : D3DElem) (hs : sentE.stream = 0xFF) :
    ∀ (l : List D3DElem) (acc : Nat), (∀ e ∈ l, e.stream ≠ 0xFF) →
      d3dStrideLoop (l ++ [sentE]) acc =
        if ∀ e ∈ l, (typeSize e.typ).isSome then
          some (l.foldl (fun a e =>
            if e.stream = 0 then max a (e.offset + (typeSize e.typ).getD 0) else a) acc)
        else none := by
  intro l
  induction l with
  | nil =>
      intro acc _
      simp [d3dStrideLoop, hs]
  | cons e rest ih =>
      intro acc hall
      have hne : e.stream ≠ 0xFF := hall e (List.mem_cons_self e rest)
      cases htyp : typeSize e.typ with
      | none =>
          simp [d3dStrideLoop, hne, htyp]
      | some sz =>
          simp only [List.cons_append, d3dStrideLoop, hne, if_false, htyp,
            List.append_eq]
          rw [ih _ (fun x hx => hall x (List.mem_cons_of_mem _ hx))]
          by_cases hrest : ∀ x ∈ rest, (typeSize x.typ).isSome
          · have hall2 : ∀ x ∈ e :: rest, (typeSize x.typ).isSome := by
              intro x hx
              rcases List.mem_cons.mp hx with h | h
              · subst h; rw [htyp]; simp
              · exact hrest x h
            simp only [hrest, if_true, hall2, List.foldl_cons, htyp]
            by_cases hstream : e.stream = 0
            · simp [hstream, hrest, htyp]
            · simp [hstream, hrest, htyp]
          · simp [hrest]

/-- C7 (amended): for every 520-byte block, `parse_d3d_decl_520` returns
`none` iff no record among the 65 has stream 0xFF, or some record before
the first sentinel has an unknown type size, or the computed stride is 0
(no stream-0 record before the sentinel — this case is missing from the
original claim) or exceeds 1024; otherwise it returns that stride with the
records up to and including the sentinel. -/
theorem parse_d3d_decl_520_spec (block : List Nat) (hb : block.length = 520) :
    ((∀ i, i < 65 → (elemAt block i).stream ≠ 0xFF) →
      parse_d3d_decl_520 block = none) ∧
    (∀ s, s < 65 → (elemAt block s).stream = 0xFF →
      (∀ j, j < s → (elemAt block j).stream ≠ 0xFF) →
      ((parse_d3d_decl_520 block = none ↔
          (∃ i, i < s ∧ typeSize (elemAt block i).typ = none) ∨
          d3dSpecStride block s = 0 ∨ 1024 < d3dSpecStride block s) ∧
        ∀ st es, parse_d3d_decl_520 block = some (st, es) →
          st = d3dSpecStride block s ∧
          es = (List.range (s + 1)).map (elemAt block))) := by
  constructor
  · intro hnos
    unfold parse_d3d_decl_520
    rw [buildD3DElems_no_sent block 65 0 (fun j _ hj2 => hnos j (by omega))]
    simp [hb]
  · intro s hs65 hsent hbefore
    have hbuild : buildD3DElems block 0 65 =
        ((List.range' 0 (s + 1)).map (elemAt block), true) := by
      have := buildD3DElems_sent block 65 0 s (Nat.zero_le s) (by omega) hsent
        (fun j _ hj2 => hbefore j hj2)
      simpa using this
    have hsplit : (List.range' 0 (s + 1)).map (elemAt block) =
        (List.range s).map (elemAt block) ++ [elemAt block s] := by
      rw [← List.range_eq_range', List.range_succ, List.map_append]
      simp
    have hnosent : ∀ e ∈ (List.range s).map (elemAt block), e.stream ≠ 0xFF := by
      intro e he
      rcases List.mem_map.mp he with ⟨j, hj, rfl⟩
      exact hbefore j (List.mem_range.mp hj)
    have hloop := d3dStrideLoop_append_sent (elemAt block s) hsent
      ((List.range s).map (elemAt block)) 0 hnosent
    have hfold : ((List.range s).map (elemAt block)).foldl
        (fun a e => if e.stream = 0 then max a (e.offset + (typeSize e.typ).getD 0) else a)
        0 = d3dSpecStride block s := by
      rw [List.foldl_map]; rfl
    have hunk : (∀ e ∈ (List.range s).map (elemAt block), (typeSize e.typ).isSome) ↔
        ¬ (∃ i, i < s ∧ typeSize (elemAt block i).typ = none) := by
      constructor
      · rintro hall ⟨i, hi, hnone⟩
        have := hall (elemAt block i) (List.mem_map.mpr ⟨i, List.mem_range.mpr hi, rfl⟩)
        rw [hnone] at this
        simp at this
      · intro hnex e he
        rcases List.mem_map.mp he with ⟨j, hj, rfl⟩
        cases htv : typeSize (elemAt block j).typ with
        | none => exact absurd ⟨j, List.mem_range.mp hj, htv⟩ hnex
        | some v => simp
    by_cases hu : ∃ i, i < s ∧ typeSize (elemAt block i).typ = none
    · have hns : ¬ ∀ e ∈ (List.range s).map (elemAt block), (typeSize e.typ).isSome := by
        rw [hunk]
        intro hcon
        exact hcon hu
      have hloop2 : d3dStrideLoop ((List.range s).map (elemAt block) ++ [elemAt block s]) 0 = none := by
        rw [hloop, if_neg hns]
      have hparse : parse_d3d_decl_520 block = none := by
        unfold parse_d3d_decl_520
        rw [hbuild]
        simp [hb, hsplit, hloop2]
      rw [hparse]
      constructor
      · simp [hu]
      · intro st es h
        simp at h
    · have hys : ∀ e ∈ (List.range s).map (elemAt block), (typeSize e.typ).isSome :=
        hunk.mpr hu
      have hloop2 : d3dStrideLoop ((List.range s).map (elemAt block) ++ [elemAt block s]) 0 =
          some (d3dSpecStride block s) := by
        rw [hloop, if_pos hys, hfold]
      by_cases hstr : d3dSpecStride block s ≤ 0 ∨ 1024 < d3dSpecStride block s
      · have hparse : parse_d3d_decl_520 block = none := by
          unfold parse_d3d_decl_520
          rw [hbuild]
          simp [hb, hsplit, hloop2, hstr]
          omega
        rw [hparse]
        constructor
        · simp only [true_iff]
          rcases hstr with h | h
          · exact Or.inr (Or.inl (by omega))
          · exact Or.inr (Or.inr h)
        · intro st es h
          simp at h
      · have hparse : parse_d3d_decl_520 block =
            some (d3dSpecStride block s, (List.range (s + 1)).map (elemAt block)) := by
          unfold parse_d3d_decl_520
          rw [hbuild]
          simp only [hb, ne_eq, not_true_eq_false, if_false, Bool.not_true,
            ite_false, hsplit, hloop2, if_neg hstr]
          rw [List.range_succ, List.map_append]
          simp
        rw [hparse]
        constructor
        · constructor
          · intro h
            simp at h
          · intro h
            rcases h with h | h | h
            · exact absurd h hu
            · exact absurd (Or.inl (by omega)) hstr
            · exact absurd (Or.inr h) hstr
        · intro st es h
          simp only [Option.some.injEq, Prod.mk.injEq] at h
          exact ⟨h.1.symm, h.2.symm⟩

set_option maxRecDepth 16384 in
/-- C7 counterexample: on the 520-byte block whose first record is the
stream-0xFF sentinel, `parse_d3d_decl_520` returns `none` although the
claim's three None-conditions all fail (a sentinel exists, no element
before it has an unknown type size, and the computed stride does not
exceed 1024): the claim's "if and only if" is false here. -/
theorem parse_d3d_decl_520_claim_cex :
    parse_d3d_decl_520 ceBlock520 = none ∧
    (elemAt ceBlock520 0).stream = 0xFF ∧
    (¬ ∃ i, i < 0 ∧ typeSize (elemAt ceBlock520 i).typ = none) ∧
    d3dSpecStride ceBlock520 0 ≤ 1024 := by
  refine ⟨by decide, by decide, ?_, by decide⟩
  rintro ⟨i, hi, _⟩
  omega

set_option maxRecDepth 16384 in
/-- Witness for the amended C7 theorem at the concrete sentinel-first
block. -/
theorem parse_d3d_decl_520_spec_witness :
    ceBlock520.length = 520 ∧
    (parse_d3d_decl_520 ceBlock520 = none ↔
      (∃ i, i < 0 ∧ typeSize (elemAt ceBlock520 i).typ = none) ∨
      d3dSpecStride ceBlock520 0 = 0 ∨ 1024 < d3dSpecStride ceBlock520 0) :=
  ⟨by decide,
    ((parse_d3d_decl_520_spec ceBlock520 (by decide)).2 0 (by decide) (by decide)
      (fun j hj => absurd hj (Nat.not_lt_zero j))).1⟩

/-- Helper: a `filterMap` whose body is an if-then-some-else-none is the
mapped filter. -/
theorem filterMap_eq_map_filter {α β : Type} {f : α → Option β} {p : α → Prop}
    [DecidablePred p] {g : α → β} :
    ∀ l : List α, (∀ x ∈ l, f x = if p x then some (g x) else none) →
      l.filterMap f = (l.filter fun x => decide (p x)).map g := by
  intro l
  induction l with
  | nil => intro _; rfl
  | cons a l ih =>
      intro h
      have ha := h a (List.mem_cons_self a l)
      by_cases hp : p a
      · have hd : decide (p a) = true := decide_eq_true hp
        rw [List.filterMap_cons, ha, if_pos hp, List.filter_cons, hd]
        simp only [if_true, List.map_cons]
        rw [ih (fun x hx => h x (List.mem_cons_of_mem _ hx))]
      · have hd : decide (p a) = false := decide_eq_false hp
        rw [List.filterMap_cons, ha, if_neg hp, List.filter_cons, hd]
        simp only [Bool.false_eq_true, if_false]
        exact ih (fun x hx => h x (List.mem_cons_of_mem _ hx))

/-- Helper: the scanner's per-offset probe succeeds exactly on claim-valid
offsets, and then emits the claim-described block. -/
theorem probeStride32_eq (payload : List Nat) (off : Nat) :
    probeStride32 payload off =
      if stride32ValidAt payload off then some (stride32BlockAt payload off)
      else none := by
  have e1 : off + 4 + 4 = off + 8 := by omega
  have e2 : off + 4 + 8 = off + 12 := by omega
  unfold probeStride32 stride32BlockAt stride32ValidAt
  dsimp only
  simp only [e1, e2]
  by_cases h1 : readU32 payload off < 3 ∨ 2000000 < readU32 payload off
  · rw [if_pos h1, if_neg]
    rintro ⟨a, b, -⟩
    omega
  · rw [if_neg h1]
    by_cases h2 : payload.length < off + 4 + readU32 payload off * 32 + 8
    · rw [if_pos h2, if_neg]
      rintro ⟨-, -, c, -⟩
      omega
    · rw [if_neg h2]
      by_cases h3 : readU32 payload (off + 4 + readU32 payload off * 32) ≠ 101 ∧
          readU32 payload (off + 4 + readU32 payload off * 32) ≠ 102
      · rw [if_pos h3, if_neg]
        rintro ⟨-, -, -, d, -⟩
        rcases d with d | d
        · exact h3.1 d
        · exact h3.2 d
      · rw [if_neg h3]
        by_cases h4 : readU32 payload (off + 4 + readU32 payload off * 32 + 4) = 0 ∨
            500000000 < readU32 payload (off + 4 + readU32 payload off * 32 + 4) ∨
            readU32 payload (off + 4 + readU32 payload off * 32 + 4) % 2 ≠ 0
        · rw [if_pos h4, if_neg]
          rintro ⟨-, -, -, -, d1, d2, d3, -⟩
          omega
        · rw [if_neg h4]
          by_cases h5 : payload.length <
              off + 4 + readU32 payload off * 32 + 8 +
                readU32 payload (off + 4 + readU32 payload off * 32 + 4)
          · rw [if_pos h5, if_neg]
            rintro ⟨-, -, -, -, -, -, -, d, -⟩
            omega
          · rw [if_neg h5]
            by_cases h6 : readU32 payload (off + 4 + readU32 payload off * 32 + 4) / 2 < 3 ∨
                readU32 payload (off + 4 + readU32 payload off * 32 + 4) / 2 % 3 ≠ 0
            · rw [if_pos h6, if_neg]
              rintro ⟨-, -, -, -, -, -, -, -, d1, d2, -⟩
              omega
            · rw [if_neg h6]
              by_cases h7 : ¬ (f32AbsLe200000 (readU32 payload (off + 4)) = true ∧
                  f32AbsLe200000 (readU32 payload (off + 8)) = true ∧
                  f32AbsLe200000 (readU32 payload (off + 12)) = true)
              · rw [if_pos h7, if_neg]
                rintro ⟨-, -, -, -, -, -, -, -, -, -, d1, d2, d3, -⟩
                exact h7 ⟨d1, d2, d3⟩
              · rw [if_neg h7]
                push_neg at h7
                by_cases h8 : ¬ ((List.range
                      (min 10 (readU32 payload (off + 4 + readU32 payload off * 32 + 4) / 2))).all
                    fun i => decide (readU16 payload
                      (off + 4 + readU32 payload off * 32 + 8 + i * 2) <
                        readU32 payload off))
                · rw [if_pos h8, if_neg]
                  rintro ⟨-, -, -, -, -, -, -, -, -, -, -, -, -, d⟩
                  apply h8
                  rw [List.all_eq_true]
                  intro i hi
                  rw [decide_eq_true_eq]
                  exact d i (List.mem_range.mp hi)
                · rw [if_neg h8]
                  rw [if_pos]
                  push_neg at h1 h3 h4 h5 h6 h8
                  refine ⟨by omega, by omega, by omega, ?_, by omega, by omega,
                    by omega, by omega, by omega, by omega, h7.1, h7.2.1, h7.2.2, ?_⟩
                  · by_cases ht : readU32 payload (off + 4 + readU32 payload off * 32) = 101
                    · exact Or.inl ht
                    · exact Or.inr (h3 ht)
                  · intro i hi
                    have := List.all_eq_true.mp h8 i (List.mem_range.mpr hi)
                    exact decide_eq_true_eq.mp this

/-- C3: the stride-32 scanner returns exactly the blocks of the
claim-valid offsets of the scanned window — every byte position (no
alignment) satisfying all the predicates contributes its block — and the
offsets of the result are strictly increasing. -/
theorem scan_scn0_stride32_mesh_blocks_spec (payload : List Nat) (start : Nat) :
    scan_scn0_stride32_mesh_blocks payload start =
      ((List.range' (max 0 start) (max 0 (payload.length - 16) - max 0 start)).filter
        (fun off => decide (stride32ValidAt payload off))).map
        (stride32BlockAt payload) ∧
    (scan_scn0_stride32_mesh_blocks payload start).Pairwise
      (fun a b => a.off < b.off) := by
  have htw : ((List.range' (max 0 start) (max 0 (payload.length - 16) - max 0 start)).takeWhile
      fun off => decide (off + 4 ≤ payload.length)) =
      List.range' (max 0 start) (max 0 (payload.length - 16) - max 0 start) := by
    rw [List.takeWhile_eq_self_iff]
    intro x hx
    rw [List.mem_range'] at hx
    rw [decide_eq_true_eq]
    rcases hx with ⟨i, hi, rfl⟩
    simp only [Nat.max_eq_right (Nat.zero_le _)] at hi ⊢
    omega
  have hmain : scan_scn0_stride32_mesh_blocks payload start =
      ((List.range' (max 0 start) (max 0 (payload.length - 16) - max 0 start)).filter
        (fun off => decide (stride32ValidAt payload off))).map
        (stride32BlockAt payload) := by
    unfold scan_scn0_stride32_mesh_blocks
    dsimp only
    rw [htw]
    exact filterMap_eq_map_filter _ (fun x _ => probeStride32_eq payload x)
  refine ⟨hmain, ?_⟩
  rw [hmain]
  rw [List.pairwise_map]
  have hpw : (List.range' (max 0 start) (max 0 (payload.length - 16) - max 0 start)).Pairwise
      (· < ·) := List.pairwise_lt_range' _ _ 1 (by omega)
  have hsub : List.Sublist
      ((List.range' (max 0 start) (max 0 (payload.length - 16) - max 0 start)).filter
        (fun off => decide (stride32ValidAt payload off)))
      (List.range' (max 0 start) (max 0 (payload.length - 16) - max 0 start)) :=
    List.filter_sublist _
  have hfil := hpw.sublist hsub
  exact hfil.imp (fun {a b} hab => hab)

/-- Helper: the face-building loop succeeds on an index list of length
divisible by 3 and chunks it into consecutive non-overlapping triples. -/
theorem buildTris_spec :
    ∀ (n : Nat) (l : List Nat), l.length ≤ n → l.length % 3 = 0 →
      ∃ fs, buildTris l = some fs ∧ fs.length = l.length / 3 ∧
        ∀ j, 3 * j + 2 < l.length →
          fs.getD j (0, 0, 0) =
            (l.getD (3 * j) 0, l.getD (3 * j + 1) 0, l.getD (3 * j + 2) 0) := by
  intro n
  induction n with
  | zero =>
      intro l hl _
      have : l = [] := List.eq_nil_of_length_eq_zero (by omega)
      subst this
      exact ⟨[], rfl, by simp, fun j hj => by simp at hj⟩
  | succ m ih =>
      intro l hl hmod
      match l with
      | [] => exact ⟨[], rfl, by simp, fun j hj => by simp at hj⟩
      | [a] => simp at hmod
      | [a, b] => simp at hmod
      | a :: b :: c :: rest =>
          have hr1 : rest.length ≤ m := by
            simp only [List.length_cons] at hl
            omega
          have hr2 : rest.length % 3 = 0 := by
            simp only [List.length_cons] at hmod
            omega
          obtain ⟨fs, hfs, hlen, hget⟩ := ih rest hr1 hr2
          refine ⟨(a, b, c) :: fs, ?_, ?_, ?_⟩
          · simp [buildTris, hfs]
          · simp only [List.length_cons, hlen]
            omega
          · intro j hj
            match j with
            | 0 => simp
            | j + 1 =>
                have h3 : 3 * (j + 1) = 3 * j + 3 := by ring
                simp only [List.length_cons] at hj
                simp only [List.getD_cons_succ, h3]
                have e1 : 3 * j + 3 = (3 * j + 2) + 1 := by omega
                have e2 : 3 * j + 3 + 1 = (3 * j + 2) + 2 := by omega
                have e3 : 3 * j + 3 + 2 = (3 * j + 2) + 3 := by omega
                rw [hget j (by omega)]

/-- Helper: `mapM` over `Option` with a pointwise-succeeding body is the
`some` of the map. -/
theorem mapM_option_eq_map {α β : Type} (f : α → Option β) (g : α → β) :
    ∀ l : List α, (∀ x ∈ l, f x = some (g x)) → l.mapM f = some (l.map g) := by
  intro l
  induction l with
  | nil => intro _; rfl
  | cons a l ih =>
      intro h
      rw [List.mapM_cons, h a (List.mem_cons_self a l),
        ih (fun x hx => h x (List.mem_cons_of_mem _ hx))]
      rfl

/-- Helper: full characterization of `decode_scn0_stride32_mesh_block` on a
block whose geometry lies inside the payload (as the scanner guarantees):
it succeeds, every vertex carries a normal and a UV, the three per-vertex
lists have length `vcount`, and the faces are the consecutive
non-overlapping index triples of the index buffer. -/
theorem decode_scn0_block_chars (payload : List Nat) (b : Stride32Block)
    (flip_v swap_yz : Bool)
    (hib : b.ib_off = b.vb_off + b.vcount * 32 + 8)
    (heven : b.ib_bytes % 2 = 0)
    (hdiv3 : (b.ib_bytes / 2) % 3 = 0)
    (hbound : b.ib_off + b.ib_bytes ≤ payload.length) :
    ∃ m, decode_scn0_stride32_mesh_block payload b flip_v swap_yz = some m ∧
      m.vertices.length = b.vcount ∧
      m.normals.length = b.vcount ∧
      m.uvs.length = b.vcount ∧
      (∀ x ∈ m.normals, x.isSome = true) ∧
      (∀ x ∈ m.uvs, x.isSome = true) ∧
      m.faces.length = b.ib_bytes / 6 ∧
      (∀ j, 3 * j + 2 < b.ib_bytes / 2 →
        m.faces.getD j (0, 0, 0) =
          (readU16 payload (b.ib_off + 2 * (3 * j)),
           readU16 payload (b.ib_off + 2 * (3 * j + 1)),
           readU16 payload (b.ib_off + 2 * (3 * j + 2)))) := by
  have hvb32 : b.vb_off + b.vcount * 32 + 8 + b.ib_bytes ≤ payload.length := by
    rw [← hib]; exact hbound
  set gg : Nat → ((PyF × PyF × PyF) × (PyF × PyF × PyF) × (PyF × PyF)) := fun i =>
    (let p := (PyF.f32 (readU32 payload (b.vb_off + i * 32)),
               PyF.f32 (readU32 payload (b.vb_off + i * 32 + 4)),
               PyF.f32 (readU32 payload (b.vb_off + i * 32 + 8)))
     let nr := (PyF.f32 (readU32 payload (b.vb_off + i * 32 + 12)),
                PyF.f32 (readU32 payload (b.vb_off + i * 32 + 12 + 4)),
                PyF.f32 (readU32 payload (b.vb_off + i * 32 + 12 + 8)))
     let uv0 := (PyF.f32 (readU32 payload (b.vb_off + i * 32 + 24)),
                 PyF.f32 (readU32 payload (b.vb_off + i * 32 + 24 + 4)))
     (if swap_yz then (p.1, p.2.2, p.2.1) else p,
      if swap_yz then (nr.1, nr.2.2, nr.2.1) else nr,
      if flip_v then (uv0.1, PyF.oneMinus uv0.2) else uv0)) with hgg
  have hf : ∀ i ∈ List.range b.vcount,
      (do
        let base := b.vb_off + i * 32
        let p ← unpack3f payload base
        let nr ← unpack3f payload (base + 12)
        let uv0 ← unpack2f payload (base + 24)
        let p1 := if swap_yz then (p.1, p.2.2, p.2.1) else p
        let nr1 := if swap_yz then (nr.1, nr.2.2, nr.2.1) else nr
        let uv1 := if flip_v then (uv0.1, PyF.oneMinus uv0.2) else uv0
        pure (p1, nr1, uv1) : Option _) = some (gg i) := by
    intro i hi
    rw [List.mem_range] at hi
    have hup : b.vb_off + i * 32 + 32 ≤ payload.length := by omega
    have e1 : unpack3f payload (b.vb_off + i * 32) =
        some (PyF.f32 (readU32 payload (b.vb_off + i * 32)),
          PyF.f32 (readU32 payload (b.vb_off + i * 32 + 4)),
          PyF.f32 (readU32 payload (b.vb_off + i * 32 + 8))) := by
      unfold unpack3f
      rw [if_pos (by omega)]
    have e2 : unpack3f payload (b.vb_off + i * 32 + 12) =
        some (PyF.f32 (readU32 payload (b.vb_off + i * 32 + 12)),
          PyF.f32 (readU32 payload (b.vb_off + i * 32 + 12 + 4)),
          PyF.f32 (readU32 payload (b.vb_off + i * 32 + 12 + 8))) := by
      unfold unpack3f
      rw [if_pos (by omega)]
    have e3 : unpack2f payload (b.vb_off + i * 32 + 24) =
        some (PyF.f32 (readU32 payload (b.vb_off + i * 32 + 24)),
          PyF.f32 (readU32 payload (b.vb_off + i * 32 + 24 + 4))) := by
      unfold unpack2f
      rw [if_pos (by omega)]
    simp only [e1, e2, e3, Option.bind_some, Option.some_bind, Option.bind_eq_bind]
    rfl
  have hvd :=
    mapM_option_eq_map
      (fun i => do
        let base := b.vb_off + i * 32
        let p ← unpack3f payload base
        let nr ← unpack3f payload (base + 12)
        let uv0 ← unpack2f payload (base + 24)
        let p1 := if swap_yz then (p.1, p.2.2, p.2.1) else p
        let nr1 := if swap_yz then (nr.1, nr.2.2, nr.2.1) else nr
        let uv1 := if flip_v then (uv0.1, PyF.oneMinus uv0.2) else uv0
        pure (p1, nr1, uv1))
      gg (List.range b.vcount) hf
  have hil : unpackU16s payload b.ib_off (b.ib_bytes / 2) =
      some ((List.range (b.ib_bytes / 2)).map
        fun i => readU16 payload (b.ib_off + 2 * i)) := by
    unfold unpackU16s
    rw [if_pos (by omega)]
  have hillen : ((List.range (b.ib_bytes / 2)).map
      fun i => readU16 payload (b.ib_off + 2 * i)).length = b.ib_bytes / 2 := by
    simp
  obtain ⟨fs, hfs, hfslen, hfsget⟩ := buildTris_spec
    (((List.range (b.ib_bytes / 2)).map
      fun i => readU16 payload (b.ib_off + 2 * i)).length)
    ((List.range (b.ib_bytes / 2)).map fun i => readU16 payload (b.ib_off + 2 * i))
    le_rfl (by rw [hillen]; exact hdiv3)
  have hidx : ∀ t, t < b.ib_bytes / 2 →
      ((List.range (b.ib_bytes / 2)).map
        fun i => readU16 payload (b.ib_off + 2 * i)).getD t 0 =
      readU16 payload (b.ib_off + 2 * t) := by
    intro t ht
    rw [List.getD_eq_getElem?_getD, List.getElem?_map, List.getElem?_range ht]
    rfl
  have hdec : decode_scn0_stride32_mesh_block payload b flip_v swap_yz =
      some ⟨"SCN0_mesh_" ++ toString b.off, 0,
        ((List.range b.vcount).map gg).map (fun t => t.1),
        ((List.range b.vcount).map gg).map (fun t => some t.2.1),
        ((List.range b.vcount).map gg).map (fun t => some t.2.2),
        fs, [], [], []⟩ := by
    unfold decode_scn0_stride32_mesh_block
    rw [hvd]
    simp only [Option.bind_eq_bind, Option.some_bind]
    rw [hil]
    simp only [Option.some_bind]
    rw [hfs]
    rfl
  refine ⟨_, hdec, ?_, ?_, ?_, ?_, ?_, ?_, ?_⟩
  · simp
  · simp
  · simp
  · intro x hx
    rcases List.mem_map.mp hx with ⟨t, _, rfl⟩
    rfl
  · intro x hx
    rcases List.mem_map.mp hx with ⟨t, _, rfl⟩
    rfl
  · show fs.length = b.ib_bytes / 6
    rw [hfslen, hillen, Nat.div_div_eq_div_mul]
  · intro j hj
    show fs.getD j (0, 0, 0) = _
    rw [hfsget j (by rw [hillen]; exact hj)]
    rw [hidx (3 * j) (by omega), hidx (3 * j + 1) (by omega),
      hidx (3 * j + 2) (by omega)]

/-- Helper: membership in the scanner output comes from a claim-valid
offset. -/
theorem scan_mem_elim (payload : List Nat) (start : Nat) (b : Stride32Block)
    (hb : b ∈ scan_scn0_stride32_mesh_blocks payload start) :
    ∃ x, stride32ValidAt payload x ∧ b = stride32BlockAt payload x := by
  unfold scan_scn0_stride32_mesh_blocks at hb
  rw [List.mem_filterMap] at hb
  obtain ⟨x, _, hxp⟩ := hb
  rw [probeStride32_eq] at hxp
  by_cases hval : stride32ValidAt payload x
  · rw [if_pos hval] at hxp
    exact ⟨x, hval, ((Option.some.injEq _ _).mp hxp).symm⟩
  · rw [if_neg hval] at hxp
    exact absurd hxp (by simp)

/-- C10: for every block accepted by the stride-32 scanner, the decoder
succeeds with a mesh whose vertex, normal and UV lists each have exactly
`vcount` elements (every vertex carries both a normal and a UV), and whose
face list holds exactly `ib_bytes/6` triangles formed from the consecutive
non-overlapping index triples of the index buffer in order. -/
theorem decode_scn0_stride32_mesh_block_spec (payload : List Nat) (start : Nat)
    (b : Stride32Block) (flip_v swap_yz : Bool)
    (hb : b ∈ scan_scn0_stride32_mesh_blocks payload start) :
    ∃ m, decode_scn0_stride32_mesh_block payload b flip_v swap_yz = some m ∧
      m.vertices.length = b.vcount ∧
      m.normals.length = b.vcount ∧
      m.uvs.length = b.vcount ∧
      (∀ x ∈ m.normals, x.isSome = true) ∧
      (∀ x ∈ m.uvs, x.isSome = true) ∧
      m.faces.length = b.ib_bytes / 6 ∧
      (∀ j, 3 * j + 2 < b.ib_bytes / 2 →
        m.faces.getD j (0, 0, 0) =
          (readU16 payload (b.ib_off + 2 * (3 * j)),
           readU16 payload (b.ib_off + 2 * (3 * j + 1)),
           readU16 payload (b.ib_off + 2 * (3 * j + 2)))) := by
  obtain ⟨x, hval, hbx⟩ := scan_mem_elim payload start b hb
  subst hbx
  unfold stride32ValidAt at hval
  obtain ⟨-, -, -, -, -, -, h7, h8, -, h10, -⟩ := hval
  exact decode_scn0_block_chars payload _ flip_v swap_yz rfl h7 h10 h8

set_option maxRecDepth 100000 in
/-- Witness for C10 at the concrete payload `cePayloadS32`. -/
theorem decode_scn0_stride32_mesh_block_spec_witness :
    (⟨0, 3, 4, 96, 101, 24, 108, 132, 32⟩ : Stride32Block) ∈
      scan_scn0_stride32_mesh_blocks cePayloadS32 0 ∧
    ∃ m, decode_scn0_stride32_mesh_block cePayloadS32
        ⟨0, 3, 4, 96, 101, 24, 108, 132, 32⟩ true false = some m ∧
      m.vertices.length = 3 ∧ m.faces.length = 4 :=
  ⟨by decide,
    match decode_scn0_stride32_mesh_block_spec cePayloadS32 0
        ⟨0, 3, 4, 96, 101, 24, 108, 132, 32⟩ true false (by decide) with
    | ⟨m, hm, hv, _, _, _, _, hf, _⟩ => ⟨m, hm, hv, hf⟩⟩

set_option maxRecDepth 100000 in
/-- C1 counterexample: the scanner accepts the block of `cePayloadS32`
(its first 10 indices are in range), yet the decoded mesh contains a face
whose third index (100) is not less than the vertex-list length (3): the
invariant "every face index < vertex count" fails for a decoded mesh. -/
theorem mesh_face_index_invariant_cex :
    ∃ b ∈ scan_scn0_stride32_mesh_blocks cePayloadS32 0,
      ∃ m, decode_scn0_stride32_mesh_block cePayloadS32 b true false = some m ∧
        ∃ f ∈ m.faces, ¬ (f.2.2 < m.vertices.length) := by
  decide

/-- C1 (amended): no decoding path bound-checks face indices at face-build
time; for the stride-32 path exactly the sampled prefix is guaranteed:
each of the first `min 10 idx_count` indices of a scanner-accepted block
is below the decoded mesh's vertex-list length, and the faces drawn
entirely from that prefix have all three indices below it. -/
theorem stride32_sampled_face_indices_lt (payload : List Nat) (start : Nat)
    (b : Stride32Block) (m : Mesh) (flip_v swap_yz : Bool)
    (hb : b ∈ scan_scn0_stride32_mesh_blocks payload start)
    (hm : decode_scn0_stride32_mesh_block payload b flip_v swap_yz = some m) :
    (∀ j, j < min 10 (b.ib_bytes / 2) →
      readU16 payload (b.ib_off + j * 2) < m.vertices.length) ∧
    (∀ j, 3 * j + 2 < min 10 (b.ib_bytes / 2) →
      (m.faces.getD j (0, 0, 0)).1 < m.vertices.length ∧
      (m.faces.getD j (0, 0, 0)).2.1 < m.vertices.length ∧
      (m.faces.getD j (0, 0, 0)).2.2 < m.vertices.length) := by
  obtain ⟨x, hval, hbx⟩ := scan_mem_elim payload start b hb
  subst hbx
  have hval2 := hval
  unfold stride32ValidAt at hval2
  obtain ⟨-, -, -, -, -, -, h7, h8, -, h10, -, -, -, hsample⟩ := hval2
  obtain ⟨m2, hm2, hv2, -, -, -, -, -, hface⟩ :=
    decode_scn0_block_chars payload (stride32BlockAt payload x) flip_v swap_yz
      rfl h7 h10 h8
  rw [hm] at hm2
  have hmm : m = m2 := (Option.some.injEq _ _).mp hm2
  subst hmm
  have hlen : m.vertices.length = readU32 payload x := hv2
  have hsamp : ∀ j, j < min 10 ((stride32BlockAt payload x).ib_bytes / 2) →
      readU16 payload ((stride32BlockAt payload x).ib_off + j * 2) <
        m.vertices.length := by
    intro j hj
    rw [hlen]
    exact hsample j hj
  refine ⟨hsamp, ?_⟩
  intro j hj
  have h3j : 3 * j + 2 < (stride32BlockAt payload x).ib_bytes / 2 := by
    have := Nat.min_le_right 10 ((stride32BlockAt payload x).ib_bytes / 2)
    omega
  rw [hface j h3j]
  have e0 : 2 * (3 * j) = (3 * j) * 2 := by ring
  have e1 : 2 * (3 * j + 1) = (3 * j + 1) * 2 := by ring
  have e2 : 2 * (3 * j + 2) = (3 * j + 2) * 2 := by ring
  refine ⟨?_, ?_, ?_⟩
  · show readU16 payload ((stride32BlockAt payload x).ib_off + 2 * (3 * j)) <
      m.vertices.length
    rw [e0]
    exact hsamp (3 * j) (by omega)
  · show readU16 payload ((stride32BlockAt payload x).ib_off + 2 * (3 * j + 1)) <
      m.vertices.length
    rw [e1]
    exact hsamp (3 * j + 1) (by omega)
  · show readU16 payload ((stride32BlockAt payload x).ib_off + 2 * (3 * j + 2)) <
      m.vertices.length
    rw [e2]
    exact hsamp (3 * j + 2) (by omega)

set_option maxRecDepth 100000 in
/-- Witness for the amended C1 theorem at the concrete payload. -/
theorem stride32_sampled_face_indices_lt_witness :
    (⟨0, 3, 4, 96, 101, 24, 108, 132, 32⟩ : Stride32Block) ∈
      scan_scn0_stride32_mesh_blocks cePayloadS32 0 ∧
    decode_scn0_stride32_mesh_block cePayloadS32
      ⟨0, 3, 4, 96, 101, 24, 108, 132, 32⟩ true false = some ceMeshS32 ∧
    readU16 cePayloadS32 (108 + 0 * 2) < ceMeshS32.vertices.length :=
  ⟨by decide, by decide,
    (stride32_sampled_face_indices_lt cePayloadS32 0
      ⟨0, 3, 4, 96, 101, 24, 108, 132, 32⟩ ceMeshS32 true false
      (by decide) (by decide)).1 0 (by decide)⟩

/-- Helper: length of the deep chain. -/
theorem length_deepBytes : ∀ k, (deepBytes k).length = 73 * (k + 1) := by
  intro k
  induction k with
  | zero => rfl
  | succ m ih =>
      rw [deepBytes]
      simp only [List.length_append, List.length_cons, List.length_replicate,
        List.length_nil, ih]
      omega

/-- Helper: one unfolding of a non-innermost level, reassociated. -/
theorem deepBytes_succ (k : Nat) :
    deepBytes (k + 1) =
      (0 :: (List.replicate 64 0 ++ [1, 0, 0, 0])) ++
        (deepBytes k ++ [0, 0, 0, 0]) := by
  rw [deepBytes, List.append_assoc]

/-- Helper: byte facts about one level of the deep chain. -/
theorem deepBytes_head (k : Nat) : byteAt (deepBytes k) 0 = 0 := by
  cases k <;> rfl

/-- Helper: the four flag1 bytes of a non-innermost level are `01 00 00 00`. -/
theorem deepBytes_flag1 (k : Nat) :
    byteAt (deepBytes (k + 1)) 65 = 1 ∧ byteAt (deepBytes (k + 1)) 66 = 0 ∧
    byteAt (deepBytes (k + 1)) 67 = 0 ∧ byteAt (deepBytes (k + 1)) 68 = 0 := by
  unfold byteAt
  rw [deepBytes_succ]
  refine ⟨?_, ?_, ?_, ?_⟩ <;>
    rw [List.getD_append _ _ _ _ (by decide)] <;> decide

/-- Helper: the bytes of the nested child within a level. -/
theorem deepBytes_inner (k j : Nat) (hj : j < (deepBytes k).length) :
    byteAt (deepBytes (k + 1)) (69 + j) = byteAt (deepBytes k) j := by
  unfold byteAt
  rw [deepBytes_succ]
  have h69 : ((0 : Nat) :: (List.replicate 64 0 ++ [1, 0, 0, 0])).length = 69 := by
    decide
  rw [List.getD_append_right _ _ _ _ (by rw [h69]; omega), h69,
    List.getD_append _ _ _ _ (by omega)]
  congr 1
  omega

/-- Helper: the four flag2 closing bytes of a level are zero. -/
theorem deepBytes_close (k t : Nat) (ht : t < 4) :
    byteAt (deepBytes (k + 1)) (69 + (deepBytes k).length + t) = 0 := by
  unfold byteAt
  rw [deepBytes_succ]
  have h69 : ((0 : Nat) :: (List.replicate 64 0 ++ [1, 0, 0, 0])).length = 69 := by
    decide
  rw [List.getD_append_right _ _ _ _ (by rw [h69]; omega), h69,
    List.getD_append_right _ _ _ _ (by omega)]
  have he : 69 + (deepBytes k).length + t - 69 - (deepBytes k).length = t := by
    omega
  rw [he]
  match t, ht with
  | 0, _ => rfl
  | 1, _ => rfl
  | 2, _ => rfl
  | 3, _ => rfl

/-- Helper: the innermost level has zero flag bytes at 65..72. -/
theorem deepBytes_zero_tail (t : Nat) (ht : 65 ≤ t) (ht2 : t ≤ 72) :
    byteAt (deepBytes 0) t = 0 := by
  interval_cases t <;> rfl

/-- Helper: a u32 read whose four bytes are known. -/
theorem readU32o_of_bytes (data : List Nat) (p b0 b1 b2 b3 : Nat)
    (hb : p + 4 ≤ data.length)
    (h0 : byteAt data p = b0) (h1 : byteAt data (p + 1) = b1)
    (h2 : byteAt data (p + 2) = b2) (h3 : byteAt data (p + 3) = b3) :
    readU32o data p = some (b0 + 256 * b1 + 65536 * b2 + 16777216 * b3) := by
  unfold readU32o readU32
  rw [if_pos hb, h0, h1, h2, h3]

/-- Helper: parsing the `k+1`-level deep chain from any position where it
occurs succeeds, ends right after it, and uses recursion depth `k + 1`. -/
theorem parseNodeAux_deep :
    ∀ k fuel i data, SliceAt data i (deepBytes k) → k + 1 ≤ fuel →
      parseNodeAux data fuel i = some (i + 73 * (k + 1), k + 1) := by
  intro k
  induction k with
  | zero =>
      intro fuel i data hsl hfuel
      obtain ⟨f, rfl⟩ : ∃ f, fuel = f + 1 := ⟨fuel - 1, by omega⟩
      obtain ⟨hlen, hbytes⟩ := hsl
      rw [length_deepBytes] at hlen
      have hb0 : byteAt data i = 0 := by
        have h := hbytes 0 (by rw [length_deepBytes]; omega)
        rw [Nat.add_zero] at h
        rw [h, deepBytes_head]
      have hfind : findNul data i = some i := by
        rw [findNul, dif_pos (by omega : i < data.length), if_pos hb0]
      have hbyte65 : ∀ t, 65 ≤ t → t ≤ 72 → byteAt data (i + t) = 0 := by
        intro t h1 h2
        have h := hbytes t (by rw [length_deepBytes]; omega)
        rw [h, deepBytes_zero_tail t h1 h2]
      have hflag1 : readU32o data (i + 1 + 0x40) = some 0 := by
        have e : i + 1 + 0x40 = i + 65 := by omega
        rw [e]
        have := readU32o_of_bytes data (i + 65) 0 0 0 0 (by omega)
          (hbyte65 65 (by omega) (by omega))
          (by
            have e2 : i + 65 + 1 = i + 66 := by omega
            rw [e2]; exact hbyte65 66 (by omega) (by omega))
          (by
            have e2 : i + 65 + 2 = i + 67 := by omega
            rw [e2]; exact hbyte65 67 (by omega) (by omega))
          (by
            have e2 : i + 65 + 3 = i + 68 := by omega
            rw [e2]; exact hbyte65 68 (by omega) (by omega))
        simpa using this
      have hflag2 : readU32o data (i + 1 + 0x40 + 4) = some 0 := by
        have e : i + 1 + 0x40 + 4 = i + 69 := by omega
        rw [e]
        have := readU32o_of_bytes data (i + 69) 0 0 0 0 (by omega)
          (hbyte65 69 (by omega) (by omega))
          (by
            have e2 : i + 69 + 1 = i + 70 := by omega
            rw [e2]; exact hbyte65 70 (by omega) (by omega))
          (by
            have e2 : i + 69 + 2 = i + 71 := by omega
            rw [e2]; exact hbyte65 71 (by omega) (by omega))
          (by
            have e2 : i + 69 + 3 = i + 72 := by omega
            rw [e2]; exact hbyte65 72 (by omega) (by omega))
        simpa using this
      rw [parseNodeAux]
      rw [hfind]
      simp only [Option.some_bind, Option.bind_eq_bind]
      rw [if_neg (by omega : ¬ data.length < i + 1 + 0x40)]
      rw [hflag1]
      simp only [Option.some_bind]
      rw [if_neg (by omega : ¬ (0 : Nat) = 1)]
      simp only [Option.some_bind, Option.pure_def]
      rw [hflag2]
      simp only [Option.some_bind]
      rw [if_neg (by omega : ¬ (0 : Nat) = 1)]
      show some (i + 1 + 0x40 + 4 + 4, 1 + max 0 0) = _
      have e : i + 1 + 0x40 + 4 + 4 = i + 73 * (0 + 1) := by omega
      rw [e]
      rfl
  | succ m ih =>
      intro fuel i data hsl hfuel
      obtain ⟨f, rfl⟩ : ∃ f, fuel = f + 1 := ⟨fuel - 1, by omega⟩
      obtain ⟨hlen, hbytes⟩ := hsl
      rw [length_deepBytes] at hlen
      have hb0 : byteAt data i = 0 := by
        have h := hbytes 0 (by rw [length_deepBytes]; omega)
        rw [Nat.add_zero] at h
        rw [h, deepBytes_head]
      have hfind : findNul data i = some i := by
        rw [findNul, dif_pos (by omega : i < data.length), if_pos hb0]
      obtain ⟨hf1, hf2, hf3, hf4⟩ := deepBytes_flag1 m
      have hflag1 : readU32o data (i + 1 + 0x40) = some 1 := by
        have e : i + 1 + 0x40 = i + 65 := by omega
        rw [e]
        have := readU32o_of_bytes data (i + 65) 1 0 0 0 (by omega)
          (by
            have h := hbytes 65 (by rw [length_deepBytes]; omega)
            rw [h, hf1])
          (by
            have e2 : i + 65 + 1 = i + 66 := by omega
            rw [e2]
            have h := hbytes 66 (by rw [length_deepBytes]; omega)
            rw [h, hf2])
          (by
            have e2 : i + 65 + 2 = i + 67 := by omega
            rw [e2]
            have h := hbytes 67 (by rw [length_deepBytes]; omega)
            rw [h, hf3])
          (by
            have e2 : i + 65 + 3 = i + 68 := by omega
            rw [e2]
            have h := hbytes 68 (by rw [length_deepBytes]; omega)
            rw [h, hf4])
        simpa using this
      have hchild : SliceAt data (i + 69) (deepBytes m) := by
        constructor
        · rw [length_deepBytes]
          omega
        · intro j hj
          have e : i + 69 + j = i + (69 + j) := by omega
          rw [e]
          have h := hbytes (69 + j) (by rw [length_deepBytes] at hj ⊢; omega)
          rw [h, deepBytes_inner m j hj]
      have hrec : parseNodeAux data f (i + 1 + 0x40 + 4) =
          some (i + 69 + 73 * (m + 1), m + 1) := by
        have e : i + 1 + 0x40 + 4 = i + 69 := by omega
        rw [e]
        exact ih f (i + 69) data hchild (by omega)
      have hclose : ∀ t, t < 4 →
          byteAt data (i + 69 + 73 * (m + 1) + t) = 0 := by
        intro t ht
        have e : i + 69 + 73 * (m + 1) + t = i + (69 + 73 * (m + 1) + t) := by
          omega
        rw [e]
        have h := hbytes (69 + 73 * (m + 1) + t)
          (by rw [length_deepBytes]; omega)
        rw [h]
        have e2 : 69 + 73 * (m + 1) + t = 69 + (deepBytes m).length + t := by
          rw [length_deepBytes]
        rw [e2]
        exact deepBytes_close m t ht
      have hflag2 : readU32o data (i + 69 + 73 * (m + 1)) = some 0 := by
        have := readU32o_of_bytes data (i + 69 + 73 * (m + 1)) 0 0 0 0
          (by omega)
          (by
            have h := hclose 0 (by omega)
            simpa using h)
          (hclose 1 (by omega))
          (hclose 2 (by omega))
          (hclose 3 (by omega))
        simpa using this
      rw [parseNodeAux]
      rw [hfind]
      simp only [Option.some_bind, Option.bind_eq_bind]
      rw [if_neg (by omega : ¬ data.length < i + 1 + 0x40)]
      rw [hflag1]
      simp only [Option.some_bind]
      simp only [if_true]
      rw [hrec]
      simp only [Option.some_bind]
      rw [hflag2]
      simp only [Option.some_bind]
      rw [if_neg (by omega : ¬ (0 : Nat) = 1)]
      simp only [Option.some_bind, Option.pure_def]
      have e : i + 69 + 73 * (m + 1) + 4 = i + 73 * (m + 1 + 1) := by omega
      rw [e]
      have e2 : 1 + max (m + 1) 0 = m + 1 + 1 := by omega
      rw [e2]

/-- C8 (code bug exhibit): `parse_scn_tree` imposes no recursion bound.
On the 100002-level flag1 chain `deepBytes 100001` it parses to the end —
returning the cursor position `73 * 100002` immediately after the root
node — while using native recursion depth 100002 > 100000, instead of
rejecting the pathologically deep input as the spec requires. -/
theorem parse_scn_tree_no_depth_bound :
    parse_scn_tree (deepBytes 100001) 0 = some (73 * 100002) ∧
    parse_scn_tree_depth (deepBytes 100001) 0 = some 100002 ∧
    100000 < 100002 := by
  have hlen : (deepBytes 100001).length = 73 * 100002 := length_deepBytes 100001
  have hslice : SliceAt (deepBytes 100001) 0 (deepBytes 100001) :=
    ⟨by omega, fun j hj => by rw [Nat.zero_add]⟩
  have h := parseNodeAux_deep 100001 ((deepBytes 100001).length + 1) 0
    (deepBytes 100001) hslice (by rw [hlen]; omega)
  unfold parse_scn_tree parse_scn_tree_depth
  rw [h]
  exact ⟨rfl, rfl, by omega⟩

/-- C9: on a declaration whose base selector `decl &&& 0x400E` is none of
the seven table values, `decode_vertex` does not fail on the base field:
it behaves exactly like a declaration with the recognized 12-byte
3-float base selector 0x0002 and the same optional/packed/UV bits, read
at the same byte offset `i * stride`; in particular whenever it succeeds
the position is the first 12 bytes at the vertex's offset read as three
32-bit floats. -/
theorem decode_vertex_unknown_base (decl decl2 : Nat) (vb : List Nat) (i : Nat)
    (flip_v swap_yz : Bool)
    (hu2 : decl &&& 0x400E ≠ 0x0002) (hu4 : decl &&& 0x400E ≠ 0x0004)
    (hu6 : decl &&& 0x400E ≠ 0x0006) (hu8 : decl &&& 0x400E ≠ 0x0008)
    (huA : decl &&& 0x400E ≠ 0x000A) (huC : decl &&& 0x400E ≠ 0x000C)
    (huE : decl &&& 0x400E ≠ 0x000E)
    (h2 : decl2 &&& 0x400E = 0x0002)
    (e10 : decl &&& 0x10 = decl2 &&& 0x10)
    (e20 : decl &&& 0x20 = decl2 &&& 0x20)
    (e40 : decl &&& 0x40 = decl2 &&& 0x40)
    (e80 : decl &&& 0x80 = decl2 &&& 0x80)
    (euvc : (decl >>> 8) &&& 0xF = (decl2 >>> 8) &&& 0xF)
    (euvf : (decl >>> 16) &&& 0xFFFF = (decl2 >>> 16) &&& 0xFFFF) :
    decode_vertex decl vb i flip_v swap_yz =
      decodeVertexCore decl2 vb (i * vertex_stride_from_decl decl)
        flip_v swap_yz ∧
    ∀ r, decode_vertex decl vb i flip_v swap_yz = some r →
      r.1 = (if swap_yz then
          (PyF.f32 (readU32 vb (i * vertex_stride_from_decl decl)),
           PyF.f32 (readU32 vb (i * vertex_stride_from_decl decl + 8)),
           PyF.f32 (readU32 vb (i * vertex_stride_from_decl decl + 4)))
        else
          (PyF.f32 (readU32 vb (i * vertex_stride_from_decl decl)),
           PyF.f32 (readU32 vb (i * vertex_stride_from_decl decl + 4)),
           PyF.f32 (readU32 vb (i * vertex_stride_from_decl decl + 8)))) := by
  have hmain : decode_vertex decl vb i flip_v swap_yz =
      decodeVertexCore decl2 vb (i * vertex_stride_from_decl decl)
        flip_v swap_yz := by
    have hnrm : ∀ off1, decodeVertexNrm decl vb off1 swap_yz =
        decodeVertexNrm decl2 vb off1 swap_yz := by
      intro off1
      unfold decodeVertexNrm
      rw [e10]
    have huv : ∀ off4, decodeVertexUV decl vb off4 flip_v =
        decodeVertexUV decl2 vb off4 flip_v := by
      intro off4
      unfold decodeVertexUV
      rw [euvc, euvf]
    unfold decode_vertex decodeVertexCore
    simp only [h2, e10, e20, e40, e80, euvc, euvf, hu2, hu4, hu6, hu8, huA,
      huC, huE, if_false, if_true, eq_self_iff_true, or_self, false_or,
      or_false, hnrm, huv]
  refine ⟨hmain, ?_⟩
  intro r hr
  rw [hmain] at hr
  set off := i * vertex_stride_from_decl decl with hoff
  unfold decodeVertexCore at hr
  simp only [h2, if_true, eq_self_iff_true] at hr
  cases hp : unpackPos vb off 3 with
  | none =>
      rw [hp] at hr
      simp at hr
  | some p0 =>
      rw [hp] at hr
      have hp0 : p0 = (PyF.f32 (readU32 vb off), PyF.f32 (readU32 vb (off + 4)),
          PyF.f32 (readU32 vb (off + 8))) := by
        unfold unpackPos at hp
        by_cases hbb : off + 4 * 3 ≤ vb.length
        · rw [if_pos hbb] at hp
          exact ((Option.some.injEq _ _).mp hp).symm
        · rw [if_neg hbb] at hp
          simp at hp
      simp only [Option.some_bind, Option.bind_eq_bind] at hr
      rcases Option.bind_eq_some.mp hr with ⟨nd, hnd, hr2⟩
      rcases Option.bind_eq_some.mp hr2 with ⟨uv, huv, hr3⟩
      have := (Option.some.injEq _ _).mp hr3
      rw [← this, hp0]

/-- Witness for C9 at the concrete unknown declaration 0 (base selector 0)
against the recognized declaration 2. -/
theorem decode_vertex_unknown_base_witness :
    decode_vertex 0 (List.replicate 12 0) 0 true false =
      decodeVertexCore 2 (List.replicate 12 0)
        (0 * vertex_stride_from_decl 0) true false :=
  (decode_vertex_unknown_base 0 2 (List.replicate 12 0) 0 true false
    (by decide) (by decide) (by decide) (by decide) (by decide) (by decide)
    (by decide) (by decide) (by decide) (by decide) (by decide) (by decide)
    (by decide) (by decide)).1

/-- Helper: the per-entry loop succeeds with the table's entry dicts when
every entry is valid (with positive accumulators), and reports `ok =
False` (`some none`) when some entry fails, provided all reads stay
inside the payload. -/
theorem readSubsetEntriesAux_spec (payload : List Nat)
    (off size vcount fc : Nat) (hsize : size = 20 ∨ size = 16) :
    ∀ rem i, off + 4 + (i + rem) * size ≤ payload.length →
      (((∀ t, t < rem →
          SubsetEntryOK payload (off + 4 + (i + t) * size) vcount fc size) →
        ∃ mx sm, readSubsetEntriesAux payload off size vcount fc i rem =
          some (some ((List.range' i rem).map (fun t =>
            subsetEntryDict (readU32 payload (off + 4 + t * size))
              (readU32 payload (off + 4 + t * size + 4))
              (readU32 payload (off + 4 + t * size + 8))
              (readU32 payload (off + 4 + t * size + 12))), mx, sm)) ∧
          rem ≤ sm ∧ (1 ≤ rem → 1 ≤ mx)) ∧
      ((¬ ∀ t, t < rem →
          SubsetEntryOK payload (off + 4 + (i + t) * size) vcount fc size) →
        readSubsetEntriesAux payload off size vcount fc i rem = some none)) := by
  intro rem
  induction rem with
  | zero =>
      intro i _
      constructor
      · intro _
        exact ⟨0, 0, rfl, le_rfl, by omega⟩
      · intro hno
        exact absurd (fun t ht => absurd ht (by omega)) hno
  | succ m ih =>
      intro i hbound
      have hb1 : off + 4 + i * size + size ≤ payload.length := by
        rcases hsize with h | h <;> subst h <;> omega
      have hb2 : off + 4 + (i + 1 + m) * size ≤ payload.length := by
        rcases hsize with h | h <;> subst h <;> omega
      have ihm := ih (i + 1) hb2
      -- entry 0 values
      set base := off + 4 + i * size with hbase
      by_cases hok0 : SubsetEntryOK payload base vcount fc size
      · obtain ⟨hk1, hk2, hk3, hk4, hk5, hk6⟩ := hok0
        have c1 : ¬ (size = 20 ∧ readU32 payload (base + 16) ≠ vcount) := by
          rintro ⟨hs, hne⟩
          exact hne (hk1 hs)
        have c2 : ¬ vcount < readU32 payload (base + 12) := by omega
        have c3 : ¬ (100000000 < readU32 payload (base + 4) ∨
            100000000 < readU32 payload (base + 8) ∨
            readU32 payload (base + 8) = 0) := by omega
        have c4 : ¬ fc < readU32 payload (base + 4) + readU32 payload (base + 8) := by
          omega
        have hstep : readSubsetEntriesAux payload off size vcount fc i (m + 1) =
            match readSubsetEntriesAux payload off size vcount fc (i + 1) m with
            | none => none
            | some none => some none
            | some (some (es, mx, sm)) =>
                some (some (subsetEntryDict (readU32 payload base)
                    (readU32 payload (base + 4)) (readU32 payload (base + 8))
                    (readU32 payload (base + 12)) :: es,
                  max (readU32 payload (base + 4) + readU32 payload (base + 8)) mx,
                  readU32 payload (base + 8) + sm)) := by
          rw [readSubsetEntriesAux]
          rw [if_pos hb1, if_neg c1, if_neg c2, if_neg c3, if_neg c4]
        by_cases hrest : ∀ t, t < m →
            SubsetEntryOK payload (off + 4 + (i + 1 + t) * size) vcount fc size
        · obtain ⟨mx, sm, hrec, hsm, hmx⟩ := ihm.1 hrest
          constructor
          · intro _
            refine ⟨max (readU32 payload (base + 4) + readU32 payload (base + 8)) mx,
              readU32 payload (base + 8) + sm, ?_, by omega, by omega⟩
            rw [hstep, hrec]
            have hr : List.range' i (m + 1) = i :: List.range' (i + 1) m := rfl
            rw [hr, List.map_cons]
          · intro hno
            exfalso
            apply hno
            intro t ht
            match t, ht with
            | 0, _ =>
                have e : i + 0 = i := by omega
                rw [e]
                exact ⟨hk1, hk2, hk3, hk4, hk5, hk6⟩
            | t + 1, ht =>
                have e : i + (t + 1) = i + 1 + t := by omega
                rw [e]
                exact hrest t (by omega)
        · have hrec := ihm.2 hrest
          constructor
          · intro hall
            exfalso
            apply hrest
            intro t ht
            have e : i + 1 + t = i + (t + 1) := by omega
            rw [e]
            exact hall (t + 1) (by omega)
          · intro _
            rw [hstep, hrec]
      · constructor
        · intro hall
          exact absurd (by
            have := hall 0 (by omega)
            have e : i + 0 = i := by omega
            rw [e] at this
            exact this) hok0
        · intro _
          rw [readSubsetEntriesAux]
          rw [if_pos hb1]
          unfold SubsetEntryOK at hok0
          push_neg at hok0
          by_cases c1 : size = 20 ∧ readU32 payload (base + 16) ≠ vcount
          · rw [if_pos c1]
          · rw [if_neg c1]
            by_cases c2 : vcount < readU32 payload (base + 12)
            · rw [if_pos c2]
            · rw [if_neg c2]
              by_cases c3 : 100000000 < readU32 payload (base + 4) ∨
                  100000000 < readU32 payload (base + 8) ∨
                  readU32 payload (base + 8) = 0
              · rw [if_pos c3]
              · rw [if_neg c3]
                by_cases c4 : fc < readU32 payload (base + 4) +
                    readU32 payload (base + 8)
                · rw [if_pos c4]
                · exfalso
                  push_neg at c1 c3 c4
                  have := hok0 c1 (by omega) (by omega) (by omega) (by omega)
                  omega

/-- Helper: characterization of one size-candidate at one offset, when the
declaration offset lies inside the payload. -/
theorem subsetTableAt_spec (payload : List Nat) (d v fc off size count : Nat)
    (hsize : size = 20 ∨ size = 16) (hd : d ≤ payload.length)
    (hcount : 1 ≤ count) :
    (d < off + (4 + count * size) →
      subsetTableAt payload d v fc off size count = some none) ∧
    (off + (4 + count * size) ≤ d →
      ((∀ i, i < count → SubsetEntryOK payload (off + 4 + i * size) v fc size) →
        subsetTableAt payload d v fc off size count =
          some (some ((List.range count).map (fun t =>
            subsetEntryDict (readU32 payload (off + 4 + t * size))
              (readU32 payload (off + 4 + t * size + 4))
              (readU32 payload (off + 4 + t * size + 8))
              (readU32 payload (off + 4 + t * size + 12))),
            off + (4 + count * size)))) ∧
      ((¬ ∀ i, i < count → SubsetEntryOK payload (off + 4 + i * size) v fc size) →
        subsetTableAt payload d v fc off size count = some none)) := by
  constructor
  · intro hover
    unfold subsetTableAt
    rw [if_pos (by omega)]
  · intro hfit
    have hbound : off + 4 + (0 + count) * size ≤ payload.length := by
      rcases hsize with h | h <;> subst h <;> omega
    have hspec := readSubsetEntriesAux_spec payload off size v fc hsize count 0
      hbound
    constructor
    · intro hall
      obtain ⟨mx, sm, hrec, hsm, hmx⟩ := hspec.1 (by
        intro t ht
        have e : 0 + t = t := by omega
        rw [e]
        exact hall t ht)
      unfold subsetTableAt
      rw [if_neg (by omega)]
      simp only [hrec]
      rw [if_neg (by omega)]
      rw [List.range_eq_range']
    · intro hno
      have hrec := hspec.2 (by
        intro hcon
        apply hno
        intro t ht
        have := hcon t ht
        have e : 0 + t = t := by omega
        rw [e] at this
        exact this)
      unfold subsetTableAt
      rw [if_neg (by omega)]
      simp only [hrec]

/-- Helper: with the declaration offset inside the payload, a
size-candidate probe never raises, and a successful candidate's end never
exceeds the declaration offset. -/
theorem subsetTableAt_total (payload : List Nat) (d v fc off size count : Nat)
    (hsize : size = 20 ∨ size = 16) (hd : d ≤ payload.length)
    (hcount : 1 ≤ count) :
    ∃ o, subsetTableAt payload d v fc off size count = some o ∧
      ∀ cand, o = some cand → cand.2 = off + (4 + count * size) ∧ cand.2 ≤ d := by
  by_cases hover : d < off + (4 + count * size)
  · exact ⟨none, (subsetTableAt_spec payload d v fc off size count hsize hd
      hcount).1 hover, by intro cand h; simp at h⟩
  · have hfit : off + (4 + count * size) ≤ d := by omega
    have hspec := (subsetTableAt_spec payload d v fc off size count hsize hd
      hcount).2 hfit
    by_cases hall : ∀ i, i < count → SubsetEntryOK payload (off + 4 + i * size) v fc size
    · refine ⟨_, hspec.1 hall, ?_⟩
      rintro cand h
      rw [(Option.some.injEq _ _).mp h.symm]
      exact ⟨rfl, by omega⟩
    · exact ⟨none, hspec.2 hall, by intro cand h; simp at h⟩

/-- Helper: a candidate's entry list is nonempty and its head carries no
`"_end_off"` key, so `withEnd` stores and `dictGetD` retrieves the end. -/
theorem dictGetD_withEnd_entries (payload : List Nat) (off size e : Nat)
    (hc : 1 ≤ readU32 payload off) :
    dictGetD ((withEnd (subsetCandEntries payload off size) e).headD []) "_end_off" = e ∧
    withEnd (subsetCandEntries payload off size) e ≠ [] := by
  obtain ⟨n, hn⟩ : ∃ n, readU32 payload off = n + 1 :=
    ⟨readU32 payload off - 1, by omega⟩
  unfold subsetCandEntries
  rw [hn, List.range_succ_eq_map, List.map_cons]
  unfold withEnd
  constructor
  · simp only [List.headD_cons]
    unfold dictGetD dictGet subsetEntryDict
    simp [List.find?]
  · simp

/-- Helper: extending the processed slots with an invalid slot preserves
the fold invariant. -/
theorem SlotInv_extend_nocand (payload : List Nat) (d v fc : Nat)
    (slots : List (Nat × Nat)) (best : List (List (String × Nat)))
    (p : Nat × Nat) (hinv : SlotInv payload d v fc slots best)
    (hno : ¬ SubsetCand payload d v fc p.1 p.2) :
    SlotInv payload d v fc (slots ++ [p]) best := by
  rcases hinv with ⟨hb, hn⟩ | ⟨q, hq, hcand, hb, hmax⟩
  · left
    refine ⟨hb, ?_⟩
    intro r hr
    rcases List.mem_append.mp hr with h | h
    · exact hn r h
    · rw [List.mem_singleton.mp h]
      exact hno
  · right
    refine ⟨q, List.mem_append_left _ hq, hcand, hb, ?_⟩
    intro r hr hc
    rcases List.mem_append.mp hr with h | h
    · exact hmax r h hc
    · rw [List.mem_singleton.mp h] at hc
      exact absurd hc hno

/-- Helper: feeding a valid candidate slot through `updateBest` preserves
the fold invariant. -/
theorem SlotInv_update (payload : List Nat) (d v fc : Nat)
    (slots : List (Nat × Nat)) (best : List (List (String × Nat)))
    (off size : Nat) (hcand : SubsetCand payload d v fc off size)
    (hinv : SlotInv payload d v fc slots best) :
    SlotInv payload d v fc (slots ++ [(off, size)])
      (updateBest d best
        (subsetCandEntries payload off size, subsetCandEnd payload off size)) := by
  obtain ⟨hc1, hc2, hcend, hcok⟩ := hcand
  have hnewle : subsetCandEnd payload off size ≤ d := hcend
  rcases hinv with ⟨hb, hn⟩ | ⟨q, hq, hqcand, hb, hmax⟩
  · subst hb
    unfold updateBest
    rw [if_pos (Or.inl rfl)]
    right
    refine ⟨(off, size), List.mem_append_right _ (List.mem_singleton_self _),
      ⟨hc1, hc2, hcend, hcok⟩, rfl, ?_⟩
    intro r hr hc
    rcases List.mem_append.mp hr with h | h
    · exact absurd hc (hn r h)
    · rw [List.mem_singleton.mp h]
  · have hq1 : 1 ≤ readU32 payload q.1 := hqcand.1
    have hqend : subsetCandEnd payload q.1 q.2 ≤ d := hqcand.2.2.1
    obtain ⟨hget, hne⟩ := dictGetD_withEnd_entries payload q.1 q.2
      (subsetCandEnd payload q.1 q.2) hq1
    unfold updateBest
    rw [hb]
    by_cases hlt : subsetCandEnd payload q.1 q.2 < subsetCandEnd payload off size
    · rw [if_pos]
      · right
        refine ⟨(off, size), List.mem_append_right _ (List.mem_singleton_self _),
          ⟨hc1, hc2, hcend, hcok⟩, rfl, ?_⟩
        intro r hr hc
        rcases List.mem_append.mp hr with h | h
        · exact le_trans (hmax r h hc) (le_of_lt hlt)
        · rw [List.mem_singleton.mp h]
      · right
        rw [hget]
        omega
    · rw [if_neg]
      · right
        refine ⟨q, List.mem_append_left _ hq, hqcand, rfl, ?_⟩
        intro r hr hc
        rcases List.mem_append.mp hr with h | h
        · exact hmax r h hc
        · rw [List.mem_singleton.mp h]
          exact Nat.le_of_not_lt hlt
      · rw [hget]
        push_neg
        constructor
        · exact hne
        · omega

/-- Helper: one entry-size stage at one offset: the probe returns, and the
source's keep-or-update of `best` preserves the fold invariant. -/
theorem subsetStage (payload : List Nat) (d v fc : Nat)
    (slots : List (Nat × Nat)) (best : List (List (String × Nat)))
    (off size : Nat) (hsize : size = 20 ∨ size = 16)
    (hd : d ≤ payload.length) (hc1 : 1 ≤ readU32 payload off)
    (hc2 : readU32 payload off ≤ 256) :
    ∃ o, subsetTableAt payload d v fc off size (readU32 payload off) = some o ∧
      (SlotInv payload d v fc slots best →
        SlotInv payload d v fc (slots ++ [(off, size)])
          (match o with
           | none => best
           | some cand => updateBest d best cand)) := by
  obtain ⟨o, ho, hcend⟩ :=
    subsetTableAt_total payload d v fc off size (readU32 payload off) hsize hd hc1
  refine ⟨o, ho, ?_⟩
  intro hinv
  cases o with
  | none =>
      apply SlotInv_extend_nocand payload d v fc slots best (off, size) hinv
      rintro ⟨hh1, hh2, hhend, hhok⟩
      have hpos := ((subsetTableAt_spec payload d v fc off size
        (readU32 payload off) hsize hd hc1).2 hhend).1 hhok
      rw [hpos] at ho
      simp at ho
  | some cand =>
      have hfit : off + (4 + readU32 payload off * size) ≤ d := by
        by_contra hx
        have hover := (subsetTableAt_spec payload d v fc off size
          (readU32 payload off) hsize hd hc1).1 (by omega)
        rw [hover] at ho
        simp at ho
      have hall : ∀ i, i < readU32 payload off →
          SubsetEntryOK payload (off + 4 + i * size) v fc size := by
        by_contra hx
        have hbad := ((subsetTableAt_spec payload d v fc off size
          (readU32 payload off) hsize hd hc1).2 hfit).2 hx
        rw [hbad] at ho
        simp at ho
      have hpos := ((subsetTableAt_spec payload d v fc off size
        (readU32 payload off) hsize hd hc1).2 hfit).1 hall
      rw [hpos] at ho
      have hcval : cand = (subsetCandEntries payload off size,
          subsetCandEnd payload off size) := by
        have h1 := (Option.some.injEq _ _).mp ho
        have h2 := (Option.some.injEq _ _).mp h1
        exact h2.symm
      rw [hcval]
      exact SlotInv_update payload d v fc slots best off size
        ⟨hc1, hc2, hfit, hall⟩ hinv

/-- Helper: one offset of the backward scan preserves the fold invariant,
processing its size-20 and size-16 slots in order. -/
theorem subsetOffStep_inv (payload : List Nat) (d v fc : Nat)
    (slots : List (Nat × Nat)) (best : List (List (String × Nat))) (off : Nat)
    (hd : d ≤ payload.length) (hoff : off + 4 ≤ payload.length)
    (hinv : SlotInv payload d v fc slots best) :
    ∃ best2, subsetOffStep payload d v fc best off = some best2 ∧
      SlotInv payload d v fc (slots ++ [(off, 20), (off, 16)]) best2 := by
  have hsplit : slots ++ [(off, 20), (off, 16)] =
      (slots ++ [(off, 20)]) ++ [(off, 16)] := by simp
  unfold subsetOffStep
  rw [if_pos hoff]
  by_cases hcnt : readU32 payload off = 0 ∨ 256 < readU32 payload off
  · rw [if_pos hcnt]
    refine ⟨best, rfl, ?_⟩
    have h20 : ¬ SubsetCand payload d v fc off 20 := by
      rintro ⟨h1, h2, -⟩
      omega
    have h16 : ¬ SubsetCand payload d v fc off 16 := by
      rintro ⟨h1, h2, -⟩
      omega
    rw [hsplit]
    exact SlotInv_extend_nocand payload d v fc _ best (off, 16)
      (SlotInv_extend_nocand payload d v fc slots best (off, 20) hinv h20) h16
  · rw [if_neg hcnt]
    push_neg at hcnt
    have hc1 : 1 ≤ readU32 payload off := by omega
    have hc2 : readU32 payload off ≤ 256 := hcnt.2
    obtain ⟨o20, ho20, hinv20⟩ := subsetStage payload d v fc slots best off 20
      (Or.inl rfl) hd hc1 hc2
    rw [ho20]
    cases o20 with
    | none =>
        obtain ⟨o16, ho16, hinv16⟩ := subsetStage payload d v fc
          (slots ++ [(off, 20)]) best off 16 (Or.inr rfl) hd hc1 hc2
        rw [ho16]
        cases o16 with
        | none =>
            refine ⟨best, rfl, ?_⟩
            rw [hsplit]
            exact hinv16 (hinv20 hinv)
        | some cand16 =>
            refine ⟨updateBest d best cand16, rfl, ?_⟩
            rw [hsplit]
            exact hinv16 (hinv20 hinv)
    | some cand20 =>
        obtain ⟨o16, ho16, hinv16⟩ := subsetStage payload d v fc
          (slots ++ [(off, 20)]) (updateBest d best cand20) off 16
          (Or.inr rfl) hd hc1 hc2
        rw [ho16]
        cases o16 with
        | none =>
            refine ⟨updateBest d best cand20, rfl, ?_⟩
            rw [hsplit]
            exact hinv16 (hinv20 hinv)
        | some cand16 =>
            refine ⟨updateBest d (updateBest d best cand20) cand16, rfl, ?_⟩
            rw [hsplit]
            exact hinv16 (hinv20 hinv)

/-- Helper: the backward-scan fold over a list of offsets never raises and
maintains the invariant, when the declaration offset is in bounds and all
offsets admit their 4-byte count read. -/
theorem subsetFold_inv (payload : List Nat) (d v fc : Nat)
    (hd : d ≤ payload.length) :
    ∀ (offs : List Nat) (slots : List (Nat × Nat))
      (best : List (List (String × Nat))),
      SlotInv payload d v fc slots best →
      (∀ off ∈ offs, off + 4 ≤ payload.length) →
      ∃ best2, offs.foldlM (subsetOffStep payload d v fc) best = some best2 ∧
        SlotInv payload d v fc
          (slots ++ offs.flatMap (fun o => [(o, 20), (o, 16)])) best2 := by
  intro offs
  induction offs with
  | nil =>
      intro slots best hinv _
      exact ⟨best, rfl, by simpa using hinv⟩
  | cons a offs ih =>
      intro slots best hinv hbd
      obtain ⟨best1, hstep, hinv1⟩ := subsetOffStep_inv payload d v fc slots
        best a hd (hbd a (List.mem_cons_self a offs)) hinv
      obtain ⟨best2, hfold, hinv2⟩ := ih (slots ++ [(a, 20), (a, 16)]) best1
        hinv1 (fun off hoff => hbd off (List.mem_cons_of_mem _ hoff))
      refine ⟨best2, ?_, ?_⟩
      · rw [List.foldlM_cons, hstep]
        exact hfold
      · have e : slots ++ (a :: offs).flatMap (fun o => [(o, 20), (o, 16)]) =
            (slots ++ [(a, 20), (a, 16)]) ++
              offs.flatMap (fun o => [(o, 20), (o, 16)]) := by
          simp
        rw [e]
        exact hinv2

/-- Helper: stripping the end marker recovers exactly the candidate's
entry dicts. -/
theorem stripEndKey_withEnd (payload : List Nat) (off size e : Nat)
    (hc : 1 ≤ readU32 payload off) :
    stripEndKey (withEnd (subsetCandEntries payload off size) e) =
      subsetCandEntries payload off size := by
  obtain ⟨n, hn⟩ : ∃ n, readU32 payload off = n + 1 :=
    ⟨readU32 payload off - 1, by omega⟩
  unfold subsetCandEntries
  rw [hn, List.range_succ_eq_map, List.map_cons]
  unfold withEnd stripEndKey
  simp only [subsetEntryDict]
  simp [List.find?, List.filter]

/-- Helper: the candidate entry list is nonempty. -/
theorem subsetCandEntries_ne_nil (payload : List Nat) (off size : Nat)
    (hc : 1 ≤ readU32 payload off) :
    subsetCandEntries payload off size ≠ [] := by
  obtain ⟨n, hn⟩ : ∃ n, readU32 payload off = n + 1 :=
    ⟨readU32 payload off - 1, by omega⟩
  unfold subsetCandEntries
  rw [hn, List.range_succ_eq_map, List.map_cons]
  simp

/-- Helper: every scanned offset admits its count read ahead of the
declaration offset. -/
theorem subsetWindow_mem_bound (d off : Nat) (h : off ∈ subsetWindow d) :
    off + 4 ≤ d := by
  unfold subsetWindow at h
  rw [List.mem_range'] at h
  obtain ⟨i, hi, rfl⟩ := h
  have hmul : 4 * ((d - 4 - (d - 0x4000) + 3) / 4) ≤ d - 4 - (d - 0x4000) + 3 :=
    Nat.mul_div_le _ 4
  omega

/-- Helper: full characterization of `find_subset_table` when the
declaration offset lies within the payload: it never raises; it returns
the empty list exactly when no claim-valid candidate table exists in the
backward window; and a non-empty result is the entry list of a valid
candidate whose end offset is maximal (closest to the declaration) among
all valid candidates, at either entry size. -/
theorem find_subset_table_chars (payload : List Nat) (d v fc : Nat)
    (hd : d ≤ payload.length) :
    ∃ r, find_subset_table payload d v fc = some r ∧
      (r = [] ↔ ∀ off ∈ subsetWindow d, ∀ size, size = 20 ∨ size = 16 →
        ¬ SubsetCand payload d v fc off size) ∧
      (r ≠ [] → ∃ off size, off ∈ subsetWindow d ∧ (size = 20 ∨ size = 16) ∧
        SubsetCand payload d v fc off size ∧
        r = subsetCandEntries payload off size ∧
        ∀ off2 ∈ subsetWindow d, ∀ size2, size2 = 20 ∨ size2 = 16 →
          SubsetCand payload d v fc off2 size2 →
          subsetCandEnd payload off2 size2 ≤ subsetCandEnd payload off size) := by
  have hslotmem : ∀ off size, off ∈ subsetWindow d → (size = 20 ∨ size = 16) →
      (off, size) ∈ (subsetWindow d).flatMap (fun o => [(o, 20), (o, 16)]) := by
    intro off size hoff hsize
    rw [List.mem_flatMap]
    refine ⟨off, hoff, ?_⟩
    rcases hsize with h | h <;> subst h <;> simp
  have hslotmem2 : ∀ p, p ∈ (subsetWindow d).flatMap (fun o => [(o, 20), (o, 16)]) →
      p.1 ∈ subsetWindow d ∧ (p.2 = 20 ∨ p.2 = 16) := by
    intro p hp
    rw [List.mem_flatMap] at hp
    obtain ⟨o, ho, hmem⟩ := hp
    rcases List.mem_cons.mp hmem with h | h
    · subst h
      exact ⟨ho, Or.inl rfl⟩
    · rw [List.mem_singleton.mp h]
      exact ⟨ho, Or.inr rfl⟩
  unfold find_subset_table
  by_cases hse : d - 4 ≤ d - 0x4000
  · rw [if_pos hse]
    have hwin : subsetWindow d = [] := by
      unfold subsetWindow
      have : (d - 4 - (d - 0x4000) + 3) / 4 = 0 := by omega
      rw [this]
      rfl
    refine ⟨[], rfl, ?_, by intro hne; exact absurd rfl hne⟩
    constructor
    · intro _ off hoff
      rw [hwin] at hoff
      simp at hoff
    · intro _
      rfl
  · rw [if_neg hse]
    have hbd : ∀ off ∈ subsetWindow d, off + 4 ≤ payload.length :=
      fun off hoff => le_trans (subsetWindow_mem_bound d off hoff) hd
    obtain ⟨best, hfold, hinv⟩ := subsetFold_inv payload d v fc hd
      (subsetWindow d) [] [] (Or.inl ⟨rfl, by simp⟩) hbd
    simp only [hfold]
    rw [List.nil_append] at hinv
    refine ⟨stripEndKey best, rfl, ?_, ?_⟩
    · rcases hinv with ⟨hb, hn⟩ | ⟨p, hp, hcand, hb, hmax⟩
      · subst hb
        constructor
        · intro _ off hoff size hsize
          exact hn (off, size) (hslotmem off size hoff hsize)
        · intro _
          rfl
      · have hc1 : 1 ≤ readU32 payload p.1 := hcand.1
        have hstrip : stripEndKey best = subsetCandEntries payload p.1 p.2 := by
          rw [hb]
          exact stripEndKey_withEnd payload p.1 p.2 _ hc1
        constructor
        · intro hempty
          exfalso
          rw [hstrip] at hempty
          exact subsetCandEntries_ne_nil payload p.1 p.2 hc1 hempty
        · intro hall
          exfalso
          obtain ⟨hpw, hps⟩ := hslotmem2 p hp
          exact hall p.1 hpw p.2 hps hcand
    · intro hne
      rcases hinv with ⟨hb, hn⟩ | ⟨p, hp, hcand, hb, hmax⟩
      · subst hb
        exact absurd rfl hne
      · have hc1 : 1 ≤ readU32 payload p.1 := hcand.1
        have hstrip : stripEndKey best = subsetCandEntries payload p.1 p.2 := by
          rw [hb]
          exact stripEndKey_withEnd payload p.1 p.2 _ hc1
        obtain ⟨hpw, hps⟩ := hslotmem2 p hp
        refine ⟨p.1, p.2, hpw, hps, hcand, hstrip, ?_⟩
        intro off2 hoff2 size2 hsize2 hcand2
        exact hmax (off2, size2) (hslotmem off2 size2 hoff2 hsize2) hcand2

/-- Helper: a u32 read inside an embedded segment. -/
theorem readU32_slice (data seg : List Nat) (i p : Nat)
    (hsl : SliceAt data i seg) (hp : p + 4 ≤ seg.length) :
    readU32 data (i + p) = readU32 seg p := by
  obtain ⟨hlen, hb⟩ := hsl
  unfold readU32
  have h0 := hb p (by omega)
  have h1 := hb (p + 1) (by omega)
  have h2 := hb (p + 2) (by omega)
  have h3 := hb (p + 3) (by omega)
  have e1 : i + p + 1 = i + (p + 1) := by omega
  have e2 : i + p + 2 = i + (p + 2) := by omega
  have e3 : i + p + 3 = i + (p + 3) := by omega
  rw [e1, e2, e3, h0, h1, h2, h3]

/-- Helper: a slice of an appended left part. -/
theorem SliceAt_append_right (data a b : List Nat) (i : Nat)
    (hsl : SliceAt data i (a ++ b)) : SliceAt data (i + a.length) b := by
  obtain ⟨hlen, hb⟩ := hsl
  rw [List.length_append] at hlen
  constructor
  · omega
  · intro j hj
    have h := hb (a.length + j) (by rw [List.length_append]; omega)
    have e : i + a.length + j = i + (a.length + j) := by omega
    rw [e, h]
    unfold byteAt
    rw [List.getD_append_right _ _ _ _ (by omega)]
    congr 1
    omega

/-- Helper: the whole buffer is a slice of itself. -/
theorem SliceAt_self (data : List Nat) : SliceAt data 0 data :=
  ⟨by omega, fun j _ => by rw [Nat.zero_add]⟩

/-- Helper: little-endian u32 round trip at the head of a buffer. -/
theorem readU32_u32le (v : Nat) (hv : v < 2 ^ 32) (rest : List Nat) :
    readU32 (u32le v ++ rest) 0 = v := by
  unfold readU32 u32le byteAt
  simp only [List.cons_append, List.getD]
  simp [List.getElem?_cons]
  omega

/-- Helper: each encoded entry is 20 bytes. -/
theorem length_encodeSubsetEntry (e : Nat × Nat × Nat × Nat × Nat) :
    (encodeSubsetEntry e).length = 20 := by
  unfold encodeSubsetEntry u32le
  simp

/-- Helper: total size of the encoded entries. -/
theorem sum_encodeSubsetEntry_lengths (es : List (Nat × Nat × Nat × Nat × Nat)) :
    ((es.map encodeSubsetEntry).map List.length).sum = 20 * es.length := by
  induction es with
  | nil => simp
  | cons a t ih =>
      simp only [List.map_cons, List.sum_cons, ih, length_encodeSubsetEntry,
        List.length_cons]
      ring

/-- Helper: length of the encoded table. -/
theorem length_encodeSubsetTable (es : List (Nat × Nat × Nat × Nat × Nat)) :
    (encodeSubsetTable es).length = 4 + 20 * es.length := by
  unfold encodeSubsetTable
  rw [List.length_append, List.length_flatten]
  have hu : (u32le es.length).length = 4 := by unfold u32le; simp
  rw [hu, sum_encodeSubsetEntry_lengths]

/-- Helper: a slice restricted to an appended left part. -/
theorem SliceAt_append_left (data a b : List Nat) (i : Nat)
    (hsl : SliceAt data i (a ++ b)) : SliceAt data i a := by
  obtain ⟨hlen, hb⟩ := hsl
  rw [List.length_append] at hlen
  refine ⟨by omega, ?_⟩
  intro j hj
  have h := hb j (by rw [List.length_append]; omega)
  rw [h]
  unfold byteAt
  rw [List.getD_append _ _ _ _ hj]

/-- Helper: the encoded entry `j` sits at byte offset `4 + 20 * j`. -/
theorem sliceAt_entry (data : List Nat) :
    ∀ (es : List (Nat × Nat × Nat × Nat × Nat)) (i j : Nat),
      SliceAt data i ((es.map encodeSubsetEntry).flatten) → j < es.length →
      SliceAt data (i + 20 * j) (encodeSubsetEntry (es.getD j (0, 0, 0, 0, 0))) := by
  intro es
  induction es with
  | nil => intro i j _ hj; simp at hj
  | cons a t ih =>
      intro i j hsl hj
      match j with
      | 0 =>
          simp only [List.map_cons, List.flatten_cons] at hsl
          have := SliceAt_append_left data (encodeSubsetEntry a)
            ((t.map encodeSubsetEntry).flatten) i hsl
          simpa using this
      | j + 1 =>
          simp only [List.map_cons, List.flatten_cons] at hsl
          have hsl2 := SliceAt_append_right data (encodeSubsetEntry a)
            ((t.map encodeSubsetEntry).flatten) i hsl
          rw [length_encodeSubsetEntry] at hsl2
          have := ih (i + 20) j hsl2 (by simp at hj; omega)
          have e : i + 20 * (j + 1) = i + 20 + 20 * j := by omega
          rw [e]
          simpa using this

/-- Helper: a u32 read of the whole little-endian encoding. -/
theorem readU32_u32le_alone (v : Nat) (hv : v < 2 ^ 32) :
    readU32 (u32le v) 0 = v := by
  unfold readU32 u32le byteAt
  simp only [List.getD]
  simp [List.getElem?_cons]
  omega

/-- Helper: reading back the five fields of an encoded entry. -/
theorem readU32_encodeSubsetEntry (e : Nat × Nat × Nat × Nat × Nat)
    (h1 : e.1 < 2 ^ 32) (h2 : e.2.1 < 2 ^ 32) (h3 : e.2.2.1 < 2 ^ 32)
    (h4 : e.2.2.2.1 < 2 ^ 32) (h5 : e.2.2.2.2 < 2 ^ 32) :
    readU32 (encodeSubsetEntry e) 0 = e.1 ∧
    readU32 (encodeSubsetEntry e) 4 = e.2.1 ∧
    readU32 (encodeSubsetEntry e) 8 = e.2.2.1 ∧
    readU32 (encodeSubsetEntry e) 12 = e.2.2.2.1 ∧
    readU32 (encodeSubsetEntry e) 16 = e.2.2.2.2 := by
  have hskip : ∀ (v : Nat) (rest : List Nat) (p : Nat),
      readU32 (u32le v ++ rest) (4 + p) = readU32 rest p := by
    intro v rest p
    unfold readU32 byteAt u32le
    simp only [List.cons_append, List.getD]
    have e1 : 4 + p + 1 = 4 + (p + 1) := by omega
    have e2 : 4 + p + 2 = 4 + (p + 2) := by omega
    have e3 : 4 + p + 3 = 4 + (p + 3) := by omega
    rw [e1, e2, e3]
    simp [List.getElem?_cons, Nat.add_comm]
  refine ⟨readU32_u32le e.1 h1 _, ?_, ?_, ?_, ?_⟩
  · have a1 := hskip e.1 (u32le e.2.1 ++ u32le e.2.2.1 ++ u32le e.2.2.2.1 ++
      u32le e.2.2.2.2) 0
    have g := readU32_u32le e.2.1 h2 (u32le e.2.2.1 ++ u32le e.2.2.2.1 ++
      u32le e.2.2.2.2)
    exact a1.trans g
  · have a1 := hskip e.1 (u32le e.2.1 ++ u32le e.2.2.1 ++ u32le e.2.2.2.1 ++
      u32le e.2.2.2.2) 4
    have a2 := hskip e.2.1 (u32le e.2.2.1 ++ u32le e.2.2.2.1 ++
      u32le e.2.2.2.2) 0
    have g := readU32_u32le e.2.2.1 h3 (u32le e.2.2.2.1 ++ u32le e.2.2.2.2)
    exact a1.trans (a2.trans g)
  · have a1 := hskip e.1 (u32le e.2.1 ++ u32le e.2.2.1 ++ u32le e.2.2.2.1 ++
      u32le e.2.2.2.2) 8
    have a2 := hskip e.2.1 (u32le e.2.2.1 ++ u32le e.2.2.2.1 ++
      u32le e.2.2.2.2) 4
    have a3 := hskip e.2.2.1 (u32le e.2.2.2.1 ++ u32le e.2.2.2.2) 0
    have g := readU32_u32le e.2.2.2.1 h4 (u32le e.2.2.2.2)
    exact a1.trans (a2.trans (a3.trans g))
  · have a1 := hskip e.1 (u32le e.2.1 ++ u32le e.2.2.1 ++ u32le e.2.2.2.1 ++
      u32le e.2.2.2.2) 12
    have a2 := hskip e.2.1 (u32le e.2.2.1 ++ u32le e.2.2.2.1 ++
      u32le e.2.2.2.2) 8
    have a3 := hskip e.2.2.1 (u32le e.2.2.2.1 ++ u32le e.2.2.2.2) 4
    have a4 := hskip e.2.2.2.1 (u32le e.2.2.2.2) 0
    have g := readU32_u32le_alone e.2.2.2.2 h5
    exact a1.trans (a2.trans (a3.trans (a4.trans g)))

/-- Helper: an offset step never replaces a best candidate whose recorded
end equals the declaration offset (the distance cannot drop below 0). -/
theorem subsetOffStep_keep (payload : List Nat) (d v fc : Nat)
    (best : List (List (String × Nat))) (off : Nat)
    (hd : d ≤ payload.length) (hoff : off + 4 ≤ payload.length)
    (hne : best ≠ [])
    (hget : dictGetD (best.headD []) "_end_off" = d) :
    subsetOffStep payload d v fc best off = some best := by
  unfold subsetOffStep
  rw [if_pos hoff]
  by_cases hz : readU32 payload off = 0 ∨ 256 < readU32 payload off
  · rw [if_pos hz]
  · rw [if_neg hz]
    have hcount : 1 ≤ readU32 payload off := by omega
    have hkeep : ∀ cand : List (List (String × Nat)) × Nat, cand.2 ≤ d →
        updateBest d best cand = best := by
      intro cand hcd
      unfold updateBest
      rw [if_neg]
      intro h
      rcases h with h | h
      · exact hne h
      · rw [hget] at h
        omega
    obtain ⟨o20, h20, hb20⟩ := subsetTableAt_total payload d v fc off 20
      (readU32 payload off) (Or.inl rfl) hd hcount
    obtain ⟨o16, h16, hb16⟩ := subsetTableAt_total payload d v fc off 16
      (readU32 payload off) (Or.inr rfl) hd hcount
    simp only [h20, h16]
    cases o20 with
    | none =>
        cases o16 with
        | none => rfl
        | some cand =>
            simp only [hkeep cand (hb16 cand rfl).2]
    | some cand =>
        simp only [hkeep cand (hb20 cand rfl).2]
        cases o16 with
        | none => rfl
        | some cand2 =>
            simp only [hkeep cand2 (hb16 cand2 rfl).2]

/-- Helper: the fold keeps a best candidate whose recorded end equals the
declaration offset across any list of further offsets. -/
theorem subsetFold_keep (payload : List Nat) (d v fc : Nat)
    (hd : d ≤ payload.length)
    (best : List (List (String × Nat))) (hne : best ≠ [])
    (hget : dictGetD (best.headD []) "_end_off" = d) :
    ∀ offs : List Nat, (∀ off ∈ offs, off + 4 ≤ payload.length) →
      offs.foldlM (subsetOffStep payload d v fc) best = some best := by
  intro offs
  induction offs with
  | nil => intro _; rfl
  | cons a t ih =>
      intro hb
      rw [List.foldlM_cons,
        subsetOffStep_keep payload d v fc best a hd
          (hb a (List.mem_cons_self a t)) hne hget]
      show t.foldlM (subsetOffStep payload d v fc) best = some best
      exact ih fun off hoff => hb off (List.mem_cons_of_mem a hoff)

/-- C5 (amended): subset-recovery round trip. A synthetic buffer holding a
well-formed table of `N` entry-size-20 entries (`subset_count` `N` in
`[1, 256]`, every entry valid for the given vertex and face counts, all
fields 32-bit) placed directly before the declaration offset is recovered
exactly: the same number of entries, in table order, each carrying the
injected `material_id`, `start_tri`, `tri_count` and `base_vertex`
(`vertex_count` is validated against the table but not stored). -/
theorem find_subset_table_roundtrip (es : List (Nat × Nat × Nat × Nat × Nat))
    (vcount face_count : Nat)
    (hlen1 : 1 ≤ es.length) (hlen2 : es.length ≤ 256)
    (hfields : ∀ e ∈ es, e.1 < 2 ^ 32 ∧ e.2.1 < 2 ^ 32 ∧ e.2.2.1 < 2 ^ 32 ∧
      e.2.2.2.1 < 2 ^ 32 ∧ e.2.2.2.2 < 2 ^ 32)
    (hvalid : ∀ e ∈ es, e.2.2.2.2 = vcount ∧ e.2.2.2.1 ≤ vcount ∧
      e.2.1 ≤ 100000000 ∧ 1 ≤ e.2.2.1 ∧ e.2.2.1 ≤ 100000000 ∧
      e.2.1 + e.2.2.1 ≤ face_count) :
    find_subset_table (encodeSubsetTable es) (4 + 20 * es.length) vcount
      face_count =
      some (es.map fun e => subsetEntryDict e.1 e.2.1 e.2.2.1 e.2.2.2.1) := by
  have hlenp : (encodeSubsetTable es).length = 4 + 20 * es.length :=
    length_encodeSubsetTable es
  have hn32 : es.length < 2 ^ 32 := by omega
  have hcount : readU32 (encodeSubsetTable es) 0 = es.length := by
    unfold encodeSubsetTable
    exact readU32_u32le es.length hn32 _
  have hd : 4 + 20 * es.length ≤ (encodeSubsetTable es).length := by omega
  have hslf : SliceAt (encodeSubsetTable es) 4
      ((es.map encodeSubsetEntry).flatten) := by
    have h1 := SliceAt_append_right (encodeSubsetTable es) (u32le es.length)
      ((es.map encodeSubsetEntry).flatten) 0 (SliceAt_self (encodeSubsetTable es))
    have e : (0 : Nat) + (u32le es.length).length = 4 := by unfold u32le; simp
    rw [e] at h1
    exact h1
  have hread : ∀ i, i < es.length →
      readU32 (encodeSubsetTable es) (4 + 20 * i) = (es.getD i (0,0,0,0,0)).1 ∧
      readU32 (encodeSubsetTable es) (4 + 20 * i + 4) =
        (es.getD i (0,0,0,0,0)).2.1 ∧
      readU32 (encodeSubsetTable es) (4 + 20 * i + 8) =
        (es.getD i (0,0,0,0,0)).2.2.1 ∧
      readU32 (encodeSubsetTable es) (4 + 20 * i + 12) =
        (es.getD i (0,0,0,0,0)).2.2.2.1 ∧
      readU32 (encodeSubsetTable es) (4 + 20 * i + 16) =
        (es.getD i (0,0,0,0,0)).2.2.2.2 := by
    intro i hi
    have hsl := sliceAt_entry (encodeSubsetTable es) es 4 i hslf hi
    have hmem : es.getD i (0,0,0,0,0) ∈ es := by
      rw [List.getD_eq_getElem es (0,0,0,0,0) hi]
      exact List.getElem_mem hi
    obtain ⟨f1, f2, f3, f4, f5⟩ := hfields _ hmem
    obtain ⟨r1, r2, r3, r4, r5⟩ := readU32_encodeSubsetEntry _ f1 f2 f3 f4 f5
    have hL : (encodeSubsetEntry (es.getD i (0,0,0,0,0))).length = 20 :=
      length_encodeSubsetEntry _
    refine ⟨?_, ?_, ?_, ?_, ?_⟩
    · have h := readU32_slice _ _ (4 + 20 * i) 0 hsl (by rw [hL]; omega)
      rw [r1] at h
      simpa using h
    · have h := readU32_slice _ _ (4 + 20 * i) 4 hsl (by rw [hL]; omega)
      rw [r2] at h
      exact h
    · have h := readU32_slice _ _ (4 + 20 * i) 8 hsl (by rw [hL]; omega)
      rw [r3] at h
      exact h
    · have h := readU32_slice _ _ (4 + 20 * i) 12 hsl (by rw [hL]; omega)
      rw [r4] at h
      exact h
    · have h := readU32_slice _ _ (4 + 20 * i) 16 hsl (by rw [hL])
      rw [r5] at h
      exact h
  have hOK : ∀ i, i < es.length →
      SubsetEntryOK (encodeSubsetTable es) (0 + 4 + i * 20) vcount face_count 20 := by
    intro i hi
    obtain ⟨r1, r2, r3, r4, r5⟩ := hread i hi
    have hmem : es.getD i (0,0,0,0,0) ∈ es := by
      rw [List.getD_eq_getElem es (0,0,0,0,0) hi]
      exact List.getElem_mem hi
    obtain ⟨hv1, hv2, hv3, hv4, hv5, hv6⟩ := hvalid _ hmem
    have e4 : 0 + 4 + i * 20 + 4 = 4 + 20 * i + 4 := by ring
    have e8 : 0 + 4 + i * 20 + 8 = 4 + 20 * i + 8 := by ring
    have e12 : 0 + 4 + i * 20 + 12 = 4 + 20 * i + 12 := by ring
    have e16 : 0 + 4 + i * 20 + 16 = 4 + 20 * i + 16 := by ring
    unfold SubsetEntryOK
    refine ⟨?_, ?_, ?_, ?_, ?_, ?_⟩
    · intro _
      rw [e16, r5, hv1]
    · rw [e12, r4]
      exact hv2
    · rw [e4, r2]
      exact hv3
    · rw [e8, r3]
      exact hv4
    · rw [e8, r3]
      exact hv5
    · rw [e4, e8, r2, r3]
      exact hv6
  have hc1 : 1 ≤ readU32 (encodeSubsetTable es) 0 := by
    rw [hcount]; exact hlen1
  have htab20 : subsetTableAt (encodeSubsetTable es) (4 + 20 * es.length)
      vcount face_count 0 20 es.length =
      some (some ((List.range es.length).map (fun t =>
        subsetEntryDict (readU32 (encodeSubsetTable es) (0 + 4 + t * 20))
          (readU32 (encodeSubsetTable es) (0 + 4 + t * 20 + 4))
          (readU32 (encodeSubsetTable es) (0 + 4 + t * 20 + 8))
          (readU32 (encodeSubsetTable es) (0 + 4 + t * 20 + 12))),
        0 + (4 + es.length * 20))) :=
    ((subsetTableAt_spec (encodeSubsetTable es) (4 + 20 * es.length) vcount
      face_count 0 20 es.length (Or.inl rfl) hd hlen1).2 (by omega)).1 hOK
  obtain ⟨o16, h16, hb16⟩ := subsetTableAt_total (encodeSubsetTable es)
    (4 + 20 * es.length) vcount face_count 0 16 es.length (Or.inr rfl) hd hlen1
  have hentseq : subsetCandEntries (encodeSubsetTable es) 0 20 =
      (List.range es.length).map (fun t =>
        subsetEntryDict (readU32 (encodeSubsetTable es) (0 + 4 + t * 20))
          (readU32 (encodeSubsetTable es) (0 + 4 + t * 20 + 4))
          (readU32 (encodeSubsetTable es) (0 + 4 + t * 20 + 8))
          (readU32 (encodeSubsetTable es) (0 + 4 + t * 20 + 12))) := by
    unfold subsetCandEntries
    rw [hcount]
  have hdg := dictGetD_withEnd_entries (encodeSubsetTable es) 0 20
    (0 + (4 + es.length * 20)) hc1
  have hupd0 : ∀ cand : List (List (String × Nat)) × Nat,
      updateBest (4 + 20 * es.length) [] cand = withEnd cand.1 cand.2 := by
    intro cand
    unfold updateBest
    rw [if_pos (Or.inl rfl)]
  have hstep0 : subsetOffStep (encodeSubsetTable es) (4 + 20 * es.length) vcount
      face_count [] 0 =
      some (withEnd (subsetCandEntries (encodeSubsetTable es) 0 20)
        (0 + (4 + es.length * 20))) := by
    unfold subsetOffStep
    rw [if_pos (show 0 + 4 ≤ (encodeSubsetTable es).length by omega)]
    simp only [hcount]
    rw [if_neg (show ¬ (es.length = 0 ∨ 256 < es.length) by omega)]
    simp only [htab20, h16, hupd0]
    cases o16 with
    | none =>
        simp only [hentseq]
    | some cand2 =>
        have hkeep : updateBest (4 + 20 * es.length)
            (withEnd (subsetCandEntries (encodeSubsetTable es) 0 20)
              (0 + (4 + es.length * 20))) cand2 =
            withEnd (subsetCandEntries (encodeSubsetTable es) 0 20)
              (0 + (4 + es.length * 20)) := by
          unfold updateBest
          rw [if_neg]
          intro h
          rcases h with h | h
          · exact hdg.2 h
          · rw [hdg.1] at h
            have := (hb16 cand2 rfl).2
            omega
        simp only [hentseq] at hkeep ⊢
        simp only [hkeep]
  have hse : ¬ (4 + 20 * es.length - 4 ≤ 4 + 20 * es.length - 0x4000) := by omega
  obtain ⟨m, hm⟩ : ∃ m, (4 + 20 * es.length - 4 - 0 + 3) / 4 = m + 1 :=
    ⟨(4 + 20 * es.length - 4 - 0 + 3) / 4 - 1, by omega⟩
  have hwin : subsetWindow (4 + 20 * es.length) = 0 :: List.range' 4 m 4 := by
    unfold subsetWindow
    have h0 : 4 + 20 * es.length - 0x4000 = 0 := by omega
    rw [h0, hm]
    rfl
  have hget : dictGetD ((withEnd (subsetCandEntries (encodeSubsetTable es) 0 20)
      (0 + (4 + es.length * 20))).headD []) "_end_off" = 4 + 20 * es.length := by
    rw [hdg.1]
    ring
  have hbounds : ∀ off ∈ List.range' 4 m 4, off + 4 ≤ (encodeSubsetTable es).length := by
    intro off hoff
    have hw : off ∈ subsetWindow (4 + 20 * es.length) := by
      rw [hwin]
      exact List.mem_cons_of_mem 0 hoff
    exact le_trans (subsetWindow_mem_bound _ off hw) hd
  have hfold : (subsetWindow (4 + 20 * es.length)).foldlM
      (subsetOffStep (encodeSubsetTable es) (4 + 20 * es.length) vcount face_count)
      [] = some (withEnd (subsetCandEntries (encodeSubsetTable es) 0 20)
        (0 + (4 + es.length * 20))) := by
    rw [hwin, List.foldlM_cons, hstep0]
    show (List.range' 4 m 4).foldlM
      (subsetOffStep (encodeSubsetTable es) (4 + 20 * es.length) vcount face_count)
      (withEnd (subsetCandEntries (encodeSubsetTable es) 0 20)
        (0 + (4 + es.length * 20))) = _
    exact subsetFold_keep (encodeSubsetTable es) (4 + 20 * es.length) vcount
      face_count hd _ hdg.2 hget (List.range' 4 m 4) hbounds
  unfold find_subset_table
  rw [if_neg hse]
  simp only [hfold]
  rw [stripEndKey_withEnd (encodeSubsetTable es) 0 20 _ hc1]
  congr 1
  rw [hentseq]
  apply List.ext_getElem
  · simp
  · intro i h1 h2
    simp only [List.getElem_map, List.getElem_range]
    have hi : i < es.length := by simpa using h1
    obtain ⟨r1, r2, r3, r4, r5⟩ := hread i hi
    have hgd : es.getD i (0,0,0,0,0) = es[i] :=
      List.getD_eq_getElem es (0,0,0,0,0) hi
    rw [hgd] at r1 r2 r3 r4
    have e0 : 0 + 4 + i * 20 = 4 + 20 * i := by ring
    rw [e0, r1, r2, r3, r4]

/-- C4 (amended): with the declaration offset inside the payload,
`find_subset_table` never raises; it returns the empty list exactly when
the backward window holds no valid candidate table (per-entry validity
including the source's `start_tri ≤ 1e8`, `tri_count ≤ 1e8` plausibility
bounds); and a non-empty result is exactly the entry list of a valid
candidate whose end offset is maximal, i.e. closest to the declaration
offset, among all valid candidates at either entry size. -/
theorem find_subset_table_spec (payload : List Nat)
    (decl_off vcount face_count : Nat) (hd : decl_off ≤ payload.length) :
    ∃ r, find_subset_table payload decl_off vcount face_count = some r ∧
      (r = [] ↔ ∀ off ∈ subsetWindow decl_off, ∀ size, size = 20 ∨ size = 16 →
        ¬ SubsetCand payload decl_off vcount face_count off size) ∧
      (r ≠ [] → ∃ off size, off ∈ subsetWindow decl_off ∧
        (size = 20 ∨ size = 16) ∧
        SubsetCand payload decl_off vcount face_count off size ∧
        r = subsetCandEntries payload off size ∧
        ∀ off2 ∈ subsetWindow decl_off, ∀ size2, size2 = 20 ∨ size2 = 16 →
          SubsetCand payload decl_off vcount face_count off2 size2 →
          subsetCandEnd payload off2 size2 ≤ subsetCandEnd payload off size) :=
  find_subset_table_chars payload decl_off vcount face_count hd

/-- Witness for C4: the synthetic one-entry payload, declaration offset 24,
vertex count 5, face count 1. -/
theorem find_subset_table_spec_witness :
    24 ≤ ceSubsetPayload.length ∧
    (∃ r, find_subset_table ceSubsetPayload 24 5 1 = some r ∧
      (r = [] ↔ ∀ off ∈ subsetWindow 24, ∀ size, size = 20 ∨ size = 16 →
        ¬ SubsetCand ceSubsetPayload 24 5 1 off size) ∧
      (r ≠ [] → ∃ off size, off ∈ subsetWindow 24 ∧
        (size = 20 ∨ size = 16) ∧
        SubsetCand ceSubsetPayload 24 5 1 off size ∧
        r = subsetCandEntries ceSubsetPayload off size ∧
        ∀ off2 ∈ subsetWindow 24, ∀ size2, size2 = 20 ∨ size2 = 16 →
          SubsetCand ceSubsetPayload 24 5 1 off2 size2 →
          subsetCandEnd ceSubsetPayload off2 size2 ≤
            subsetCandEnd ceSubsetPayload off size)) :=
  ⟨by decide, find_subset_table_spec ceSubsetPayload 24 5 1 (by decide)⟩

/-- Counterexample for C4 as stated: `ceSubsetPayloadB` holds (at offset 0,
entry size 20, inside the backward window of declaration offset 24) a
candidate table that is valid per the claim's literal conditions
(`base_vertex ≤ vcount`, `tri_count > 0`, `start_tri + tri_count ≤
face_count`, size-20 `vertex_count = vcount`, no overlap with the
declaration), yet `find_subset_table` returns the empty list: the source
additionally rejects entries with `start_tri > 1e8` (here 1.5e8). -/
theorem find_subset_table_claim_cex :
    find_subset_table ceSubsetPayloadB 24 5 150000001 = some [] ∧
    0 ∈ subsetWindow 24 ∧
    SubsetCandOrig ceSubsetPayloadB 24 5 150000001 0 20 := by
  decide

/-- Witness for C5: a single injected entry
`(material_id 2, start_tri 0, tri_count 1, base_vertex 0, vertex_count 5)`
with vertex count 5 and face count 1. -/
theorem find_subset_table_roundtrip_witness :
    1 ≤ [((2:Nat), (0:Nat), (1:Nat), (0:Nat), (5:Nat))].length ∧
    [((2:Nat), (0:Nat), (1:Nat), (0:Nat), (5:Nat))].length ≤ 256 ∧
    (∀ e ∈ [((2:Nat), (0:Nat), (1:Nat), (0:Nat), (5:Nat))],
      e.1 < 2 ^ 32 ∧ e.2.1 < 2 ^ 32 ∧ e.2.2.1 < 2 ^ 32 ∧
      e.2.2.2.1 < 2 ^ 32 ∧ e.2.2.2.2 < 2 ^ 32) ∧
    (∀ e ∈ [((2:Nat), (0:Nat), (1:Nat), (0:Nat), (5:Nat))],
      e.2.2.2.2 = 5 ∧ e.2.2.2.1 ≤ 5 ∧
      e.2.1 ≤ 100000000 ∧ 1 ≤ e.2.2.1 ∧ e.2.2.1 ≤ 100000000 ∧
      e.2.1 + e.2.2.1 ≤ 1) ∧
    find_subset_table
      (encodeSubsetTable [((2:Nat), (0:Nat), (1:Nat), (0:Nat), (5:Nat))])
      (4 + 20 * [((2:Nat), (0:Nat), (1:Nat), (0:Nat), (5:Nat))].length) 5 1 =
      some ([((2:Nat), (0:Nat), (1:Nat), (0:Nat), (5:Nat))].map
        fun e => subsetEntryDict e.1 e.2.1 e.2.2.1 e.2.2.2.1) :=
  ⟨by decide, by decide, by decide, by decide,
    find_subset_table_roundtrip [(2, 0, 1, 0, 5)] 5 1
      (by decide) (by decide) (by decide) (by decide)⟩

/-- Counterexample for C5 as stated: on the synthetic one-entry payload the
recovered entry does NOT carry the injected `vertex_count` — the source
validates the size-20 `vertex_count` field but stores only `material_id`,
`start_tri`, `tri_count` and `base_vertex`. -/
theorem find_subset_table_vertexcount_cex :
    find_subset_table ceSubsetPayload 24 5 1 =
      some [[("material_id", 2), ("start_tri", 0), ("tri_count", 1),
        ("base_vertex", 0)]] ∧
    dictGet [("material_id", 2), ("start_tri", 0), ("tri_count", 1),
      ("base_vertex", 0)] "vertex_count" = none := by
  decide
